import Mathlib

/-!
# mjolnir: a command-line front end for single-key operations on a bolt store

A shallow embedding of `mjolnir.go`.

* The embedded store (`github.com/boltdb/bolt`) is an external collaborator.  It is
  modelled by its capability contract: a store is an ordered list of named buckets, a
  bucket an ordered list of key/value records, and a read-write transaction commits the
  state its function produced, or rolls back when the function returns an error.  The
  engine is modelled in its fault-free behaviour (no I/O failure at commit); the
  argument checks that bolt documents for `CreateBucketIfNotExists` and `Put` are kept.
* `encoding/json` is modelled for the one target type the program uses, `interface{}`:
  the scanner (syntax check) fused with the decoder, and the encoding of a Go string.
  A decoded number keeps the exact decimal value of its literal: the rounding to
  float64 is not modelled, the range error of the conversion is.
* Text (`string`, `[]byte`) is modelled by `String`, so texts are sequences of Unicode
  code points (valid UTF-8); lengths are byte lengths of the UTF-8 encoding, as in Go.
* Process effects (standard output, the log, `os.Exit`, `log.Fatal`) are explicit: the
  world carries the store, the list of Record Accessor calls made so far, the output
  produced so far and whether the store handle has been opened and closed.  The layout
  of the rendered table is not modelled: the calls on the table writer are recorded.

The definitions come first, in the order of the source; the theorems follow.
-/

namespace Main

/-! ## Errors -/

/-- Error values that reach the program: the engine's argument errors, the JSON decoder's
errors and the formatted not-found error built by `Read`. -/
inductive Err where
  /-- bolt.ErrBucketNameRequired -/
  | bucketNameRequired
  /-- bolt.ErrKeyRequired -/
  | keyRequired
  /-- bolt.ErrKeyTooLarge -/
  | keyTooLarge
  /-- bolt.ErrValueTooLarge -/
  | valueTooLarge
  /-- json.SyntaxError -/
  | jsonSyntax
  /-- json.UnmarshalTypeError: a number literal outside the range of float64 -/
  | jsonNumberRange
  /-- The error of `Read`: key `key` was not found in bucket `bucket`. -/
  | notFound (key bucket : String)
  /-- The error of `bolt.Open`. -/
  | openFailed
  deriving DecidableEq, Repr

/-! ## The embedded store -/

/-- Bucket: records in key order. -/
abbrev Bucket := List (String × String)

/-- Store contents: the top-level buckets in name order. -/
abbrev DB := List (String × Bucket)

/-- bolt.MaxKeySize -/
def MaxKeySize : Nat := 32768

/-- bolt.MaxValueSize -/
def MaxValueSize : Nat := (1 <<< 31) - 2

/-- Result of `Bucket.Get`: the value of the first record with key `k`, `none` (Go `nil`) when there is none. -/
def Bucket.get : Bucket → String → Option String
  | [], _ => none
  | (k', v) :: rest, k => if k' = k then some v else Bucket.get rest k

/-- Stored records after `Bucket.Put` without its argument checks: overwrite the record
with key `k`, or insert a new record at its place in key order. -/
def Bucket.insert (k v : String) : Bucket → Bucket
  | [] => [(k, v)]
  | (k', v') :: rest =>
    if k' = k then (k, v) :: rest
    else if k < k' then (k, v) :: (k', v') :: rest
    else (k', v') :: Bucket.insert k v rest

/-- Stored records after `Bucket.Delete`: the records whose key is not `k`. -/
def Bucket.erase (k : String) (b : Bucket) : Bucket :=
  b.filter (fun kv => decide (kv.1 ≠ k))

/-- Contents of the top-level bucket `name`, `none` when no such bucket exists. -/
def DB.bucket (db : DB) (name : String) : Option Bucket :=
  match db with
  | [] => none
  | (n, b) :: rest => if n = name then some b else DB.bucket rest name

/-- Store with a new empty bucket `name` added at its place in name order. -/
def DB.addBucket (name : String) : DB → DB
  | [] => [(name, [])]
  | (n, b) :: rest =>
    if name < n then (name, []) :: (n, b) :: rest
    else (n, b) :: DB.addBucket name rest

/-- Store in which the contents of bucket `name` are replaced by `b`. -/
def DB.setBucket (name : String) (b : Bucket) : DB → DB
  | [] => []
  | (n, b') :: rest =>
    if n = name then (n, b) :: rest else (n, b') :: DB.setBucket name b rest

/-- Transaction step `tx.CreateBucketIfNotExists(name)`: fails on the empty name, creates
the bucket when it is missing.  The bucket handle is the name. -/
def createBucketIfNotExists (db : DB) (name : String) : Except Err DB :=
  if name.utf8ByteSize = 0 then .error .bucketNameRequired
  else match db.bucket name with
    | some _ => .ok db
    | none => .ok (db.addBucket name)

/-- Transaction step `bucket.Get(key)` on bucket `name`. -/
def txGet (db : DB) (name key : String) : Option String :=
  match db.bucket name with
  | some b => b.get key
  | none => none

/-- Transaction step `bucket.Put(key, value)` on bucket `name`: fails when the key is blank,
the key is too large or the value is too large. -/
def txPut (db : DB) (name key value : String) : Except Err DB :=
  if key.utf8ByteSize = 0 then .error .keyRequired
  else if key.utf8ByteSize > MaxKeySize then .error .keyTooLarge
  else if value.utf8ByteSize > MaxValueSize then .error .valueTooLarge
  else match db.bucket name with
    | some b => .ok (db.setBucket name (b.insert key value))
    | none => .ok db

/-- Transaction step `bucket.Delete(key)` on bucket `name`: deleting a missing key is not an error. -/
def txDelete (db : DB) (name key : String) : Except Err DB :=
  match db.bucket name with
  | some b => .ok (db.setBucket name (b.erase key))
  | none => .ok db

/-- Transaction `db.Update(fn)`: run `fn` on the current state; commit the state it
produced when it returns no error, otherwise roll back and return its error.  The
value `a` stands for what `fn` assigned to variables captured from its caller. -/
def dbUpdate {α : Type} (db : DB) (fn : DB → α × Except Err DB) : α × Option Err × DB :=
  match fn db with
  | (a, .ok db') => (a, none, db')
  | (a, .error e) => (a, some e, db)

/-! ## encoding/json, for the target type `interface{}` -/

/-- Value held by a Go `interface{}` after `json.Unmarshal`: `null` is the nil interface,
`number` stands for the float64 nearest to `(-1)^neg * mant * 10^exp` (the rounding is
not modelled), `object` for a `map[string]interface{}` listed in order of first
appearance of its keys. -/
inductive JValue where
  | null
  | bool (b : Bool)
  | number (neg : Bool) (mant : Nat) (exp : Int)
  | string (s : String)
  | array (xs : List JValue)
  | object (kvs : List (String × JValue))
  deriving Repr

/-- Go's `v == nil` for a decoded `interface{}`. -/
def JValue.isNil : JValue → Bool
  | .null => true
  | _ => false

/-- Limit of the scanner on nested arrays and objects. -/
def maxNestingDepth : Nat := 10000

/-- Scanner's `isSpace`. -/
def isSpace (c : Char) : Bool :=
  c = ' ' || c = '\t' || c = '\r' || c = '\n'

/-- Input after skipping leading white space. -/
def skipSpace : List Char → List Char
  | [] => []
  | c :: cs => if isSpace c then skipSpace cs else c :: cs

/-- Decimal digit test. -/
def isDigit (c : Char) : Bool :=
  decide (48 ≤ c.toNat ∧ c.toNat ≤ 57)

/-- Leading decimal digits of the input, and the rest. -/
def takeDigits : List Char → List Char × List Char
  | [] => ([], [])
  | c :: cs =>
    if isDigit c then ((takeDigits cs).1.cons c, (takeDigits cs).2) else ([], c :: cs)

/-- Value of a sequence of decimal digits. -/
def natOfDigits (ds : List Char) : Nat :=
  ds.foldl (fun n c => 10 * n + (c.toNat - 48)) 0

/-- The number `2^1024 - 2^970`: half a unit in the last place above the largest float64,
the least magnitude that rounds to infinity. -/
def float64Limit : Nat :=
  179769313486231580793728971405303415079934132710037826936173778980444968292764750946649017977587207096330286416692887910946555547851940402630657488671505820681908902000708383676273854845817711531764475730270069855571366959622842914819860834936475292719074168444365510704342711559699508093042880177904174497792

/-- Whether `strconv.ParseFloat(s, 64)` reports a range error for the decimal
`mant * 10^exp`: its magnitude rounds to infinity, that is, it is at least `float64Limit`. -/
def float64Overflows (mant : Nat) (exp : Int) : Bool :=
  if 0 ≤ exp then decide (float64Limit ≤ mant * 10 ^ exp.toNat)
  else decide (float64Limit * 10 ^ (-exp).toNat ≤ mant)

/-- Integer part of a number literal: `0`, or a non-zero digit followed by digits. -/
def scanInt : List Char → Option (List Char × List Char)
  | [] => none
  | c :: cs =>
    if c = '0' then some ([c], cs)
    else if isDigit c then some (c :: (takeDigits cs).1, (takeDigits cs).2)
    else none

/-- Digits that must follow a decimal point or an exponent mark: at least one. -/
def scanDigits (cs : List Char) : Option (List Char × List Char) :=
  match takeDigits cs with
  | ([], _) => none
  | (ds, rest) => some (ds, rest)

/-- Optional fraction of a number literal: `.` followed by at least one digit. -/
def scanFrac : List Char → Option (List Char × List Char)
  | [] => some ([], [])
  | c :: cs => if c = '.' then scanDigits cs else some ([], c :: cs)

/-- Exponent of a number literal after its mark: an optional sign, then digits. -/
def scanExpSigned : List Char → Option (Int × List Char)
  | [] => none
  | c :: cs =>
    if c = '+' then (scanDigits cs).map (fun p => ((natOfDigits p.1 : Int), p.2))
    else if c = '-' then (scanDigits cs).map (fun p => (-(natOfDigits p.1 : Int), p.2))
    else (scanDigits (c :: cs)).map (fun p => ((natOfDigits p.1 : Int), p.2))

/-- Optional exponent of a number literal: `e` or `E`, an optional sign, digits. -/
def scanExp : List Char → Option (Int × List Char)
  | [] => some (0, [])
  | c :: cs => if c = 'e' ∨ c = 'E' then scanExpSigned cs else some (0, c :: cs)

/-- Number literal after its optional minus sign.  The Boolean of the result tells whether
`convertNumber` saved a range error. -/
def scanUnsigned (neg : Bool) (cs : List Char) : Option (JValue × Bool × List Char) :=
  match scanInt cs with
  | none => none
  | some (ds, r1) =>
    match scanFrac r1 with
    | none => none
    | some (fs, r2) =>
      match scanExp r2 with
      | none => none
      | some (e, r3) =>
        some (.number neg (natOfDigits (ds ++ fs)) (e - (fs.length : Int)),
          float64Overflows (natOfDigits (ds ++ fs)) (e - (fs.length : Int)), r3)

/-- Number literal: an optional minus sign, integer part, fraction, exponent. -/
def scanNumber : List Char → Option (JValue × Bool × List Char)
  | [] => none
  | c :: cs => if c = '-' then scanUnsigned true cs else scanUnsigned false (c :: cs)

/-- Value of a hexadecimal digit. -/
def hexVal (c : Char) : Option Nat :=
  if 48 ≤ c.toNat ∧ c.toNat ≤ 57 then some (c.toNat - 48)
  else if 97 ≤ c.toNat ∧ c.toNat ≤ 102 then some (c.toNat - 87)
  else if 65 ≤ c.toNat ∧ c.toNat ≤ 70 then some (c.toNat - 55)
  else none

/-- Unicode replacement character, U+FFFD. -/
def replacementChar : Char := Char.ofNat 0xFFFD

/-- Result of `utf16.DecodeRune`: the code point of a surrogate pair, U+FFFD when `hi`, `lo` is not one. -/
def decodeSurrogates (hi lo : Nat) : Char :=
  if 0xD800 ≤ hi ∧ hi < 0xDC00 ∧ 0xDC00 ≤ lo ∧ lo < 0xE000 then
    Char.ofNat (0x10000 + (hi - 0xD800) * 0x400 + (lo - 0xDC00))
  else replacementChar

/-- Character written by a one-letter escape, `none` for a letter that is no escape. -/
def unescape (c : Char) : Option Char :=
  if c = '"' then some '"'
  else if c = '\\' then some '\\'
  else if c = '/' then some '/'
  else if c = 'b' then some (Char.ofNat 8)
  else if c = 'f' then some (Char.ofNat 12)
  else if c = 'n' then some '\n'
  else if c = 'r' then some '\r'
  else if c = 't' then some '\t'
  else none

/-- State of the scanner inside a string literal. -/
inductive StringState where
  /-- stateInString -/
  | plain
  /-- stateInStringEsc: a backslash has been read -/
  | escape
  /-- stateInStringEscU and the three states after it: inside a `\u` escape, with `left`
  hexadecimal digits still to read and `value` the value of those read -/
  | hex (left value : Nat)
  deriving DecidableEq, Repr

/-- Accumulated text with a pending lone surrogate escape written as U+FFFD. -/
def flushPending (pend : Option Nat) (acc : List Char) : List Char :=
  match pend with
  | some _ => replacementChar :: acc
  | none => acc

/-- String literal after its opening quote, read one character at a time: the decoded text
(accumulated in reverse in `acc`) and the input after the closing quote.  Control
characters must be escaped.  `pend` holds a high surrogate escape just read: with a low
surrogate escape right after it, it decodes to one code point, and to U+FFFD
otherwise, like every other surrogate escape. -/
def scanString : List Char → StringState → Option Nat → List Char → Option (String × List Char)
  | [], _, _, _ => none
  | c :: rest, .plain, pend, acc =>
    if c = '"' then some (String.mk (flushPending pend acc).reverse, rest)
    else if c = '\\' then scanString rest .escape pend acc
    else if c.toNat < 0x20 then none
    else scanString rest .plain none (c :: flushPending pend acc)
  | c :: rest, .escape, pend, acc =>
    if c = 'u' then scanString rest (.hex 4 0) pend acc
    else
      match unescape c with
      | none => none
      | some d => scanString rest .plain none (d :: flushPending pend acc)
  | c :: rest, .hex left value, pend, acc =>
    match hexVal c with
    | none => none
    | some d =>
      if 1 < left then scanString rest (.hex (left - 1) (value * 16 + d)) pend acc
      else if pend.isSome ∧ 0xDC00 ≤ value * 16 + d ∧ value * 16 + d < 0xE000 then
        scanString rest .plain none (decodeSurrogates (pend.getD 0) (value * 16 + d) :: acc)
      else if 0xD800 ≤ value * 16 + d ∧ value * 16 + d < 0xDC00 then
        scanString rest .plain (some (value * 16 + d)) (flushPending pend acc)
      else if 0xDC00 ≤ value * 16 + d ∧ value * 16 + d < 0xE000 then
        scanString rest .plain none (replacementChar :: flushPending pend acc)
      else scanString rest .plain none (Char.ofNat (value * 16 + d) :: flushPending pend acc)

/-- Object under construction with member `k` set to `v`: a repeated key overwrites. -/
def setMember (k : String) (v : JValue) : List (String × JValue) → List (String × JValue)
  | [] => [(k, v)]
  | (k', v') :: rest => if k' = k then (k, v) :: rest else (k', v') :: setMember k v rest

/-- Input after the literal `lit`, when the input starts with it. -/
def dropLiteral : List Char → List Char → Option (List Char)
  | [], cs => some cs
  | _ :: _, [] => none
  | l :: lit, c :: cs => if l = c then dropLiteral lit cs else none

mutual
/-- Decoder for one value at the head of the input (white space already skipped), inside
`depth` enclosing arrays and objects: the value, whether a number in it was out of range,
and the rest of the input.  `fuel` bounds the number of nested calls. -/
def parseValue : Nat → Nat → List Char → Option (JValue × Bool × List Char)
  | 0, _, _ => none
  | _ + 1, _, [] => none
  | fuel + 1, depth, c :: r =>
    if c = '"' then (scanString r .plain none []).map (fun p => (.string p.1, false, p.2))
    else if c = 't' then (dropLiteral ['r', 'u', 'e'] r).map (fun r => (.bool true, false, r))
    else if c = 'f' then (dropLiteral ['a', 'l', 's', 'e'] r).map (fun r => (.bool false, false, r))
    else if c = 'n' then (dropLiteral ['u', 'l', 'l'] r).map (fun r => (.null, false, r))
    else if c = '[' then
      if maxNestingDepth < depth + 1 then none
      else
        match skipSpace r with
        | [] => none
        | c' :: r' =>
          if c' = ']' then some (.array [], false, r')
          else parseElements fuel (depth + 1) (c' :: r') [] false
    else if c = '{' then
      if maxNestingDepth < depth + 1 then none
      else
        match skipSpace r with
        | [] => none
        | c' :: r' =>
          if c' = '}' then some (.object [], false, r')
          else parseMembers fuel (depth + 1) (c' :: r') [] false
    else scanNumber (c :: r)
/-- Decoder for the elements of an array from the head of an element on. -/
def parseElements : Nat → Nat → List Char → List JValue → Bool → Option (JValue × Bool × List Char)
  | 0, _, _, _, _ => none
  | fuel + 1, depth, cs, acc, bad =>
    match parseValue fuel depth cs with
    | none => none
    | some (v, bad', r) =>
      match skipSpace r with
      | [] => none
      | c :: r' =>
        if c = ',' then parseElements fuel depth (skipSpace r') (v :: acc) (bad || bad')
        else if c = ']' then some (.array (v :: acc).reverse, bad || bad', r')
        else none
/-- Decoder for the members of an object from the head of a key on. -/
def parseMembers : Nat → Nat → List Char → List (String × JValue) → Bool → Option (JValue × Bool × List Char)
  | 0, _, _, _, _ => none
  | _ + 1, _, [], _, _ => none
  | fuel + 1, depth, q :: r, acc, bad =>
    if q = '"' then
      match scanString r .plain none [] with
      | none => none
      | some (k, r1) =>
        match skipSpace r1 with
        | [] => none
        | c :: r2 =>
          if c = ':' then
            match parseValue fuel depth (skipSpace r2) with
            | none => none
            | some (v, bad', r3) =>
              match skipSpace r3 with
              | [] => none
              | c' :: r4 =>
                if c' = ',' then
                  parseMembers fuel depth (skipSpace r4) (setMember k v acc) (bad || bad')
                else if c' = '}' then some (.object (setMember k v acc), bad || bad', r4)
                else none
          else none
    else none
end

/-- Decoder for a whole document: white space, one value, white space, end of input.
Every nested call of the decoder consumes a character at least every second call, so
the fuel given is enough: more fuel gives the same result (`parseDocument_fuel_enough`). -/
def parseDocument (cs : List Char) : Option (JValue × Bool) :=
  match parseValue (2 * cs.length + 2) 0 (skipSpace cs) with
  | none => none
  | some (v, bad, rest) => if (skipSpace rest).isEmpty then some (v, bad) else none

/-- Syntax check `json.Valid(data)` (the scanner's `checkValid`). -/
def jsonValid (data : String) : Bool :=
  (parseDocument data.data).isSome

/-- Decoding `json.Unmarshal(data, &v)` for `v` an `interface{}`: a syntax error when the
scanner rejects `data`; otherwise the decoded value, unless a number literal was out
of the range of float64, which `Unmarshal` reports as an error after decoding. -/
def jsonUnmarshal (data : String) : Except Err JValue :=
  match parseDocument data.data with
  | none => .error .jsonSyntax
  | some (v, bad) => if bad then .error .jsonNumberRange else .ok v

/-- Lower-case hexadecimal digit of `n < 16`. -/
def hexDigit (n : Nat) : Char :=
  if n < 10 then Char.ofNat (48 + n) else Char.ofNat (87 + n)

/-- Encoding of one code point inside a JSON string, as `json.Marshal` writes it (with
HTML escaping): short escapes for backslash, quote, backspace, form feed, newline,
carriage return and tab, `\u00XX` for the other control characters and for `<`, `>`
and `&`, `\u2028` and `\u2029` for the line and paragraph separators. -/
def encodeChar (c : Char) : List Char :=
  if c = '\\' then ['\\', '\\']
  else if c = '"' then ['\\', '"']
  else if c.toNat = 8 then ['\\', 'b']
  else if c.toNat = 12 then ['\\', 'f']
  else if c = '\n' then ['\\', 'n']
  else if c = '\r' then ['\\', 'r']
  else if c = '\t' then ['\\', 't']
  else if c.toNat < 0x20 ∨ c = '<' ∨ c = '>' ∨ c = '&' then
    ['\\', 'u', '0', '0', hexDigit (c.toNat / 16), hexDigit (c.toNat % 16)]
  else if c.toNat = 0x2028 ∨ c.toNat = 0x2029 then
    ['\\', 'u', '2', '0', '2', hexDigit (c.toNat % 16)]
  else [c]

/-- Encoding of the characters of a string, without the surrounding quotes. -/
def encodeChars : List Char → List Char
  | [] => []
  | c :: cs => encodeChar c ++ encodeChars cs

/-- Encoding of a Go string as a JSON string: the quoted and escaped text. -/
def encodeString (v : String) : String :=
  String.mk ('"' :: (encodeChars v.data ++ ['"']))

/-- Encoding `json.Marshal(v)` for `v` holding a Go string.  It never fails. -/
def jsonMarshal (v : String) : Except Err String :=
  .ok (encodeString v)

/-! ## Globals, output and the world -/

/-- Package-level variables set by `flag.Parse()`. -/
structure Flags where
  database : String
  bucket : String
  key : String
  value : String
  add : Bool
  delete : Bool
  read : Bool
  update : Bool
  print : Bool
  noop : Bool
  verbose : Bool
  debug : Bool
  version : Bool
  deriving DecidableEq, Repr

/-- Call of a public operation of the Record Accessor, recorded when the operation is entered. -/
inductive Call where
  | create (key value : String)
  | read (key : String)
  | update (key value : String)
  | delete (key : String)
  | print
  | printBuckets
  deriving DecidableEq, Repr

/-- Message of a fatal log line. -/
inductive Fatal where
  /-- BoltDB path not set -/
  | databaseNotSet
  /-- You must choose an operation -/
  | noOperation
  /-- Key not set -/
  | keyNotSet
  /-- You must pass a value when adding or updating -/
  | valueNotSet
  /-- Bucket name not set -/
  | bucketNotSet
  /-- Encoding JSON failed -/
  | encodingFailed
  /-- An error value, printed as it is. -/
  | err (e : Err)
  deriving DecidableEq, Repr

/-- What the process writes, in order: calls on the shared table writer, lines on standard output, and the log. -/
inductive Out where
  /-- flag.Usage() -/
  | usage
  /-- log.Println(VERSION) -/
  | version
  /-- log.Fatalln(msg), before the process exits -/
  | fatal (msg : Fatal)
  /-- table.SetHeader(cols) -/
  | header (cols : List String)
  /-- table.Append(row) with text cells -/
  | row (cells : List String)
  /-- table.Append(row) of PrintRecord: the key and the re-encoded value -/
  | record (key : String) (value : JValue)
  /-- table.Render() -/
  | render
  /-- Info line of Create in verbose mode. -/
  | created (key value : String)
  /-- Info line of Read in verbose mode. -/
  | found (key : String)
  /-- Info line of Update in verbose mode. -/
  | updated (key : String)
  /-- Info line of Delete in verbose mode. -/
  | deleted (key : String)
  /-- Summary line of PrintBuckets. -/
  | totalBuckets (n : Nat)
  /-- Summary line of Print. -/
  | totalRecords (database bucket : String) (n : Nat)
  deriving Repr

/-- State of the process and of the store file it works on. -/
structure World where
  /-- Contents of the store. -/
  db : DB
  /-- Whether `bolt.Open` has returned a handle. -/
  opened : Bool
  /-- Whether `db.Close()` has been run on the handle. -/
  closed : Bool
  /-- Record Accessor operations entered so far, oldest first. -/
  calls : List Call
  /-- Output written so far, oldest first. -/
  out : List Out

/-- World after entering operation `c`. -/
def World.called (w : World) (c : Call) : World :=
  { w with calls := w.calls ++ [c] }

/-- World after writing `o`. -/
def World.emit (w : World) (o : List Out) : World :=
  { w with out := w.out ++ o }

/-- World whose store contents are `db`. -/
def World.setDB (w : World) (db : DB) : World :=
  { w with db := db }

/-- Outcome of a piece of the program: it returns a value, or the process has exited
(`os.Exit`, `log.Fatal`) with a status code. -/
inductive Res (α : Type) where
  | ret (a : α) (w : World)
  | exit (code : Nat) (w : World)

/-- Process ended by `log.Fatalln(msg)`: the message is logged and the process exits with status 1. -/
def fatalln {α : Type} (w : World) (msg : Fatal) : Res α :=
  .exit 1 (w.emit [.fatal msg])

/-! ## The Record Accessor -/

/-- Type `Mjolnir`: the store handle (the world's store) and the selected bucket. -/
structure Mjolnir where
  bucket : String
  deriving DecidableEq, Repr

/-- New - returns a new bolt db -/
def New (bucket : String) : Mjolnir :=
  { bucket := bucket }

/-- Private method `deleteDBKey`: the error returned and the store afterwards. -/
def Mjolnir.deleteDBKey (m : Mjolnir) (key : String) (db : DB) : Option Err × DB :=
  (dbUpdate db (fun tx =>
    ((), match createBucketIfNotExists tx m.bucket with
      | .error err => .error err
      | .ok tx => txDelete tx m.bucket key))).2

/-- Private method `getDBKey`: the value decoded (nil when the key is missing or on
error), the error returned and the store afterwards. -/
def Mjolnir.getDBKey (m : Mjolnir) (key : String) (db : DB) : JValue × Option Err × DB :=
  dbUpdate db (fun tx =>
    match createBucketIfNotExists tx m.bucket with
    | .error err => (.null, .error err)
    | .ok tx =>
      match txGet tx m.bucket key with
      | none => (.null, .ok tx)
      | some val =>
        match jsonUnmarshal val with
        | .error err => (.null, .error err)
        | .ok value => (value, .ok tx))

/-- Private method `putDBKey`: the error returned and the store afterwards.  A value that
decodes as JSON is stored as it is, any other value is stored JSON-encoded. -/
def Mjolnir.putDBKey (m : Mjolnir) (key v : String) (db : DB) : Option Err × DB :=
  (dbUpdate db (fun tx =>
    ((), match createBucketIfNotExists tx m.bucket with
      | .error err => .error err
      | .ok tx =>
        match jsonUnmarshal v with
        | .ok _ => txPut tx m.bucket key v
        | .error _ =>
          match jsonMarshal v with
          | .error err => .error err
          | .ok data => txPut tx m.bucket key data))).2

/-- Create - creates a new key in bolt db -/
def Mjolnir.Create (m : Mjolnir) (g : Flags) (key value : String) (w : World) : Option Err × World :=
  let w := w.called (.create key value)
  match m.putDBKey key value w.db with
  | (some err, db) => (some err, w.setDB db)
  | (none, db) =>
    (none, if g.verbose then (w.setDB db).emit [.created key value] else w.setDB db)

/-- Read - reads a key in bolt db -/
def Mjolnir.Read (m : Mjolnir) (g : Flags) (key : String) (w : World) : (JValue × Option Err) × World :=
  let w := w.called (.read key)
  match m.getDBKey key w.db with
  | (_, some err, db) => ((.null, some err), w.setDB db)
  | (v, none, db) =>
    if v.isNil then ((.null, some (.notFound key m.bucket)), w.setDB db)
    else ((v, none), if g.verbose then (w.setDB db).emit [.found key] else w.setDB db)

/-- Delete - deletes a key in bolt db -/
def Mjolnir.Delete (m : Mjolnir) (g : Flags) (key : String) (w : World) : Option Err × World :=
  let w := w.called (.delete key)
  match m.deleteDBKey key w.db with
  | (some err, db) => (some err, w.setDB db)
  | (none, db) =>
    (none, if g.verbose then (w.setDB db).emit [.deleted key] else w.setDB db)

/-- Update - updates a key in bolt db -/
def Mjolnir.Update (m : Mjolnir) (g : Flags) (key value : String) (w : World) : Option Err × World :=
  let w := w.called (.update key value)
  match m.Delete g key w with
  | (some err, w) => (some err, w)
  | (none, w) =>
    match m.Create g key value w with
    | (some err, w) => (some err, w)
    | (none, w) => (none, if g.verbose then w.emit [.updated key] else w)

/-- Print - will print an entire bucket to the screen.  A failure to create the bucket is
fatal inside the transaction, which is then never committed. -/
def Mjolnir.Print (m : Mjolnir) (g : Flags) (w : World) : Res (Option Err) :=
  let w := w.called .print
  match createBucketIfNotExists w.db m.bucket with
  | .error err => fatalln w (.err err)
  | .ok tx =>
    let records := (tx.bucket m.bucket).getD []
    .ret none ((w.setDB tx).emit
      ([.header ["Key", "Value"]] ++ records.map (fun kv => .row [kv.1, kv.2])
        ++ [.render, .totalRecords g.database m.bucket records.length]))

/-- PrintBuckets - prints a list of all buckets, in one read-only transaction. -/
def Mjolnir.PrintBuckets (_m : Mjolnir) (w : World) : Res Unit :=
  let w := (w.called .printBuckets).emit [.header ["Bucket Name"]]
  .ret () (w.emit (w.db.map (fun nb => .row [nb.1]) ++ [.render, .totalBuckets w.db.length]))

/-- Method `PrintRecord`: reads the key of the global flags and prints one row; an error of
`Read` is fatal.  A value decoded from JSON always encodes, so the encoding never fails. -/
def Mjolnir.PrintRecord (m : Mjolnir) (g : Flags) (w : World) : Res Unit :=
  let w := w.emit [.header ["Key", "Value"]]
  match m.Read g g.key w with
  | ((_, some err), w) => fatalln w (.err err)
  | ((result, none), w) => .ret () (w.emit [.record g.key result, .render])

/-! ## The CLI driver -/

/-- Sequencing: run `f` on the value returned, unless the process has exited. -/
def Res.bind {α β : Type} (r : Res α) (f : α → World → Res β) : Res β :=
  match r with
  | .ret a w => f a w
  | .exit code w => .exit code w

/-- Process ended by `os.Exit(code)` after `r`, unless it has exited before. -/
def Res.thenExit {α β : Type} (r : Res α) (code : Nat) : Res β :=
  match r with
  | .ret _ w => .exit code w
  | .exit c w => .exit c w

/-- Block `if add` of `main`: Create, fatal on its error, then PrintRecord. -/
def mainAdd (mjolnir : Mjolnir) (g : Flags) (w : World) : Res Unit :=
  if g.add then
    match mjolnir.Create g g.key g.value w with
    | (some err, w) => fatalln w (.err err)
    | (none, w) => mjolnir.PrintRecord g w
  else .ret () w

/-- Block `if delete` of `main`: Delete, fatal on its error. -/
def mainDelete (mjolnir : Mjolnir) (g : Flags) (w : World) : Res Unit :=
  if g.delete then
    match mjolnir.Delete g g.key w with
    | (some err, w) => fatalln w (.err err)
    | (none, w) => .ret () w
  else .ret () w

/-- Block `if read` of `main`: PrintRecord. -/
def mainRead (mjolnir : Mjolnir) (g : Flags) (w : World) : Res Unit :=
  if g.read then mjolnir.PrintRecord g w else .ret () w

/-- Block `if update` of `main`: Update, fatal on its error, then PrintRecord. -/
def mainUpdate (mjolnir : Mjolnir) (g : Flags) (w : World) : Res Unit :=
  if g.update then
    match mjolnir.Update g g.key g.value w with
    | (some err, w) => fatalln w (.err err)
    | (none, w) => mjolnir.PrintRecord g w
  else .ret () w

/-- The four operation blocks of `main`, one after the other: each is an `if` of its own,
not an alternative of the one before. -/
def mainDispatch (mjolnir : Mjolnir) (g : Flags) (w : World) : Res Unit :=
  (mainAdd mjolnir g w).bind fun _ w =>
  (mainDelete mjolnir g w).bind fun _ w =>
  (mainRead mjolnir g w).bind fun _ w =>
  mainUpdate mjolnir g w

/-- Function `main` from `mjolnir := New(db, bucket)` on, the store being open: the
argument checks in their order, the print paths, then the operation blocks. -/
def mainOpened (g : Flags) (w : World) : Res Unit :=
  let mjolnir := New g.bucket
  if !g.print && !g.add && !g.delete && !g.read && !g.update then
    fatalln (w.emit [.usage]) .noOperation
  else if (!g.print || g.read || g.delete) && decide (g.key.utf8ByteSize ≤ 0) then
    fatalln (w.emit [.usage]) .keyNotSet
  else if (g.add || g.update) && decide (g.value.utf8ByteSize ≤ 0) then
    fatalln (w.emit [.usage]) .valueNotSet
  else if g.print && decide (g.bucket.utf8ByteSize ≤ 0) then
    (mjolnir.PrintBuckets w).thenExit 0
  else if !g.print && decide (g.bucket.utf8ByteSize ≤ 0) then
    fatalln (w.emit [.usage]) .bucketNotSet
  else if g.print && decide (g.bucket.utf8ByteSize ≥ 1) && decide (g.key.utf8ByteSize ≤ 0) then
    (mjolnir.Print g w).thenExit 0
  else if g.print && decide (g.key.utf8ByteSize ≥ 1) && decide (g.bucket.utf8ByteSize ≥ 1) then
    (mjolnir.Print g w).thenExit 0
  else mainDispatch mjolnir g w

/-- Function `main`: the exit status of the process and the world it leaves.  `g` holds the
parsed flags, `openErr` the error of `bolt.Open` (if any) and `db` the contents of the
store file at that moment.  `db.Close()` is deferred: it runs when `main` returns, and
does not run when the process ends through `os.Exit` or `log.Fatal`. -/
def main (g : Flags) (openErr : Option Err) (db : DB) : Nat × World :=
  let w : World := { db := db, opened := false, closed := false, calls := [], out := [] }
  if g.version then (0, w.emit [.version])
  else if g.database.utf8ByteSize ≤ 0 then (1, w.emit [.usage, .fatal .databaseNotSet])
  else
    match openErr with
    | some err => (1, w.emit [.fatal (.err err)])
    | none =>
      match mainOpened g { w with opened := true } with
      | .ret _ w => (0, { w with closed := true })
      | .exit code w => (code, w)

/-! ## Auxiliary definitions used in the statements -/

/-- Store with bucket `name` present: the store itself when the bucket exists, otherwise the store
with a new empty bucket `name`.  It is the state `createBucketIfNotExists` leaves on success. -/
def DB.withBucket (db : DB) (name : String) : DB :=
  match db.bucket name with
  | some _ => db
  | none => db.addBucket name

/-- Bytes that `putDBKey` stores for the value text `v`: the text itself when the decoder
accepts it, its encoding as a JSON string otherwise. -/
def storedForm (v : String) : String :=
  match jsonUnmarshal v with
  | .ok _ => v
  | .error _ => encodeString v

/-- World in which a piece of the program ends, returned or exited. -/
def Res.world {α : Type} : Res α → World
  | .ret _ w => w
  | .exit _ w => w

/-- Frame condition of an operation on bucket `name` that writes no record: every bucket
of `db` holds the same records in `db'`, and `db'` is `db` itself unless the bucket
`name` was missing, in which case it exists and is empty in `db'` and nothing else has
changed. -/
def OnlyCreatesBucket (name : String) (db db' : DB) : Prop :=
  (∀ n b, db.bucket n = some b → db'.bucket n = some b) ∧
  (db' = db ∨
    (db.bucket name = none ∧ db'.bucket name = some [] ∧
      ∀ n, n ≠ name → db'.bucket n = db.bucket n))

/-- Flags of the scenario of the specification: store `/tmp/t.db`, bucket `users`, key
`alice`, value `{"age":30}`, no operation selected. -/
def scenarioFlags : Flags :=
  { database := "/tmp/t.db", bucket := "users", key := "alice", value := "\x7b\"age\":30\x7d",
    add := false, delete := false, read := false, update := false, print := false,
    noop := false, verbose := false, debug := false, version := false }

/-- World of a process that has just opened the store with contents `db`. -/
def openedWorld (db : DB) : World :=
  { db := db, opened := true, closed := false, calls := [], out := [] }

/-- Record Accessor operations that the four operation blocks of `main` enter when none of
them fails, in order: Create and Read for add, Delete for delete, Read for read,
Update (itself Delete and Create) and Read for update. -/
def dispatchCalls (g : Flags) : List Call :=
  (if g.add then [.create g.key g.value, .read g.key] else []) ++
  ((if g.delete then [.delete g.key] else []) ++
  ((if g.read then [.read g.key] else []) ++
  (if g.update then [.update g.key g.value, .delete g.key, .create g.key g.value, .read g.key]
    else [])))

/-- Piece `r` of the program, started in world `w`, enters the operations `ops`: when it
returns it has entered exactly `ops`; when the process exits in it, the exit is fatal
and a non-empty initial part of `ops` has been entered. -/
def RunsCalls (w : World) (r : Res Unit) (ops : List Call) : Prop :=
  match r with
  | .ret _ w' => w'.calls = w.calls ++ ops
  | .exit code w' => code = 1 ∧ ∃ done, done ≠ [] ∧ done <+: ops ∧ w'.calls = w.calls ++ done

/-! ## Facts about the store model -/

theorem float64Limit_eq : float64Limit = 2 ^ 1024 - 2 ^ 970 := by
  norm_num [float64Limit]

theorem utf8ByteSize_go_pos (c : Char) (cs : List Char) : 0 < String.utf8ByteSize.go (c :: cs) := by
  have h : 0 < c.utf8Size := Char.utf8Size_pos c
  simp only [String.utf8ByteSize.go]
  omega

theorem utf8ByteSize_eq_zero_iff (s : String) : s.utf8ByteSize = 0 ↔ s = "" := by
  constructor
  · intro h
    rcases s with ⟨cs⟩
    cases cs with
    | nil => rfl
    | cons c cs =>
      have hpos := utf8ByteSize_go_pos c cs
      simp only [String.utf8ByteSize] at h
      omega
  · intro h
    subst h
    rfl

theorem Bucket.get_insert (b : Bucket) (k v : String) : (Bucket.insert k v b).get k = some v := by
  induction b with
  | nil => simp [Bucket.insert, Bucket.get]
  | cons kv rest ih =>
    obtain ⟨k', v'⟩ := kv
    by_cases h1 : k' = k
    · simp [Bucket.insert, Bucket.get, h1]
    · by_cases h2 : k < k'
      · simp [Bucket.insert, Bucket.get, h1, h2]
      · simp [Bucket.insert, Bucket.get, h1, h2, ih]

theorem Bucket.get_insert_of_ne (b : Bucket) (k v k2 : String) (h : k2 ≠ k) :
    (Bucket.insert k v b).get k2 = b.get k2 := by
  induction b with
  | nil => simp [Bucket.insert, Bucket.get, Ne.symm h]
  | cons kv rest ih =>
    obtain ⟨k', v'⟩ := kv
    simp only [Bucket.insert]
    split_ifs with h1 h2
    · subst h1
      simp [Bucket.get, Ne.symm h]
    · simp [Bucket.get, Ne.symm h]
    · simp only [Bucket.get, ih]

theorem Bucket.get_erase (b : Bucket) (k : String) : (Bucket.erase k b).get k = none := by
  induction b with
  | nil => simp [Bucket.erase, Bucket.get]
  | cons kv rest ih =>
    obtain ⟨k', v'⟩ := kv
    by_cases h1 : k' = k
    · simpa [Bucket.erase, List.filter, h1] using ih
    · simpa [Bucket.erase, List.filter, Bucket.get, h1] using ih

theorem Bucket.erase_cons (k k' v' : String) (rest : Bucket) :
    Bucket.erase k ((k', v') :: rest) =
      if k' = k then Bucket.erase k rest else (k', v') :: Bucket.erase k rest := by
  by_cases h1 : k' = k <;> simp [Bucket.erase, List.filter, h1]

theorem Bucket.get_erase_of_ne (b : Bucket) (k k2 : String) (h : k2 ≠ k) :
    (Bucket.erase k b).get k2 = b.get k2 := by
  induction b with
  | nil => simp [Bucket.erase, Bucket.get]
  | cons kv rest ih =>
    obtain ⟨k', v'⟩ := kv
    rw [Bucket.erase_cons]
    split_ifs with h1
    · subst h1
      simp [Bucket.get, Ne.symm h, ih]
    · simp only [Bucket.get, ih]

theorem Bucket.erase_of_get_none (b : Bucket) (k : String) (h : b.get k = none) :
    Bucket.erase k b = b := by
  induction b with
  | nil => simp [Bucket.erase]
  | cons kv rest ih =>
    obtain ⟨k', v'⟩ := kv
    by_cases h1 : k' = k
    · simp [Bucket.get, h1] at h
    · simp only [Bucket.get, h1, if_false] at h
      rw [Bucket.erase_cons, if_neg h1, ih h]

theorem DB.bucket_setBucket_self (db : DB) (n : String) (b b0 : Bucket)
    (h : db.bucket n = some b0) : (DB.setBucket n b db).bucket n = some b := by
  induction db with
  | nil => simp [DB.bucket] at h
  | cons nb rest ih =>
    obtain ⟨n', b'⟩ := nb
    by_cases h1 : n' = n
    · simp [DB.setBucket, DB.bucket, h1]
    · simp only [DB.bucket, h1, if_false] at h
      simp [DB.setBucket, DB.bucket, h1, ih h]

theorem DB.bucket_setBucket_of_ne (db : DB) (n n2 : String) (b : Bucket) (h : n2 ≠ n) :
    (DB.setBucket n b db).bucket n2 = db.bucket n2 := by
  induction db with
  | nil => simp [DB.setBucket, DB.bucket]
  | cons nb rest ih =>
    obtain ⟨n', b'⟩ := nb
    simp only [DB.setBucket]
    split_ifs with h1
    · subst h1
      simp [DB.bucket, Ne.symm h]
    · simp only [DB.bucket, ih]

theorem DB.setBucket_same (db : DB) (n : String) (b : Bucket) (h : db.bucket n = some b) :
    DB.setBucket n b db = db := by
  induction db with
  | nil => simp [DB.setBucket]
  | cons nb rest ih =>
    obtain ⟨n', b'⟩ := nb
    by_cases h1 : n' = n
    · simp only [DB.bucket, h1, if_true, Option.some.injEq] at h
      simp [DB.setBucket, h1, h]
    · simp only [DB.bucket, h1, if_false] at h
      simp [DB.setBucket, h1, ih h]

theorem DB.bucket_addBucket_self (db : DB) (n : String) (h : db.bucket n = none) :
    (DB.addBucket n db).bucket n = some [] := by
  induction db with
  | nil => simp [DB.addBucket, DB.bucket]
  | cons nb rest ih =>
    obtain ⟨n', b'⟩ := nb
    by_cases h1 : n' = n
    · simp [DB.bucket, h1] at h
    · simp only [DB.bucket, h1, if_false] at h
      by_cases h2 : n < n'
      · simp [DB.addBucket, DB.bucket, h2]
      · simp [DB.addBucket, DB.bucket, h1, h2, ih h]

theorem DB.bucket_addBucket_of_ne (db : DB) (n n2 : String) (h : n2 ≠ n) :
    (DB.addBucket n db).bucket n2 = db.bucket n2 := by
  induction db with
  | nil => simp [DB.addBucket, DB.bucket, Ne.symm h]
  | cons nb rest ih =>
    obtain ⟨n', b'⟩ := nb
    simp only [DB.addBucket]
    split_ifs with h2
    · simp [DB.bucket, Ne.symm h]
    · simp only [DB.bucket, ih]

/-! ## Facts about the transactions of the Record Accessor -/

theorem createBucketIfNotExists_empty (db : DB) : createBucketIfNotExists db "" = .error .bucketNameRequired := by
  rfl

theorem createBucketIfNotExists_ok (db : DB) (name : String) (h : name ≠ "") :
    createBucketIfNotExists db name = .ok (db.withBucket name) := by
  have h0 : ¬ name.utf8ByteSize = 0 := fun e => h ((utf8ByteSize_eq_zero_iff name).1 e)
  unfold createBucketIfNotExists DB.withBucket
  rw [if_neg h0]
  cases db.bucket name <;> rfl

theorem DB.bucket_withBucket_self (db : DB) (n : String) :
    (db.withBucket n).bucket n = some ((db.bucket n).getD []) := by
  unfold DB.withBucket
  cases h : db.bucket n with
  | none => simpa using DB.bucket_addBucket_self db n h
  | some b => simpa using h

theorem DB.bucket_withBucket_of_ne (db : DB) (n n2 : String) (h : n2 ≠ n) :
    (db.withBucket n).bucket n2 = db.bucket n2 := by
  unfold DB.withBucket
  cases db.bucket n with
  | none => simpa using DB.bucket_addBucket_of_ne db n n2 h
  | some b => rfl

theorem DB.bucket_withBucket_of_some (db : DB) (n n2 : String) (b : Bucket)
    (h : db.bucket n2 = some b) : (db.withBucket n).bucket n2 = some b := by
  by_cases e : n2 = n
  · subst e
    rw [DB.bucket_withBucket_self, h]
    rfl
  · rw [DB.bucket_withBucket_of_ne db n n2 e, h]

theorem DB.withBucket_of_some (db : DB) (n : String) (b : Bucket) (h : db.bucket n = some b) :
    db.withBucket n = db := by
  unfold DB.withBucket
  rw [h]

theorem deleteDBKey_empty (key : String) (db : DB) :
    (New "").deleteDBKey key db = (some .bucketNameRequired, db) := by
  rfl

theorem deleteDBKey_ok (m : Mjolnir) (key : String) (db : DB) (h : m.bucket ≠ "") :
    m.deleteDBKey key db =
      (none, DB.setBucket m.bucket (Bucket.erase key ((db.bucket m.bucket).getD [])) (db.withBucket m.bucket)) := by
  unfold Mjolnir.deleteDBKey dbUpdate
  simp only [createBucketIfNotExists_ok db m.bucket h, txDelete, DB.bucket_withBucket_self]

theorem txGet_withBucket (db : DB) (n k : String) : txGet (db.withBucket n) n k = txGet db n k := by
  unfold txGet
  rw [DB.bucket_withBucket_self]
  cases db.bucket n <;> rfl

theorem getDBKey_empty (key : String) (db : DB) :
    (New "").getDBKey key db = (.null, some .bucketNameRequired, db) := by
  rfl

theorem getDBKey_missing (m : Mjolnir) (key : String) (db : DB) (h : m.bucket ≠ "")
    (hk : txGet db m.bucket key = none) :
    m.getDBKey key db = (.null, none, db.withBucket m.bucket) := by
  unfold Mjolnir.getDBKey dbUpdate
  simp only [createBucketIfNotExists_ok db m.bucket h, txGet_withBucket, hk]

theorem getDBKey_present (m : Mjolnir) (key val : String) (db : DB) (h : m.bucket ≠ "")
    (hk : txGet db m.bucket key = some val) :
    m.getDBKey key db =
      match jsonUnmarshal val with
      | .error err => (.null, some err, db)
      | .ok value => (value, none, db) := by
  have hb : ∃ b, db.bucket m.bucket = some b := by
    unfold txGet at hk
    cases hdb : db.bucket m.bucket with
    | none => rw [hdb] at hk; cases hk
    | some b => exact ⟨b, rfl⟩
  obtain ⟨b, hb⟩ := hb
  unfold Mjolnir.getDBKey dbUpdate
  simp only [createBucketIfNotExists_ok db m.bucket h, txGet_withBucket, hk]
  cases jsonUnmarshal val <;> simp [DB.withBucket_of_some db m.bucket b hb]

theorem putDBKey_eq (m : Mjolnir) (key v : String) (db : DB) (h : m.bucket ≠ "") :
    m.putDBKey key v db =
      match txPut (db.withBucket m.bucket) m.bucket key (storedForm v) with
      | .ok db' => (none, db')
      | .error e => (some e, db) := by
  unfold Mjolnir.putDBKey dbUpdate storedForm jsonMarshal
  simp only [createBucketIfNotExists_ok db m.bucket h]
  cases jsonUnmarshal v <;> simp <;> split <;> simp_all

theorem putDBKey_empty (key v : String) (db : DB) :
    (New "").putDBKey key v db = (some .bucketNameRequired, db) := by
  rfl

/-! ## Delete followed by Read -/

theorem Delete_eq (m : Mjolnir) (g : Flags) (key : String) (w : World) (h : m.bucket ≠ "") :
    (m.Delete g key w).1 = none ∧
    (m.Delete g key w).2.db =
      DB.setBucket m.bucket (Bucket.erase key ((w.db.bucket m.bucket).getD [])) (w.db.withBucket m.bucket) ∧
    (m.Delete g key w).2.calls = w.calls ++ [.delete key] := by
  unfold Mjolnir.Delete
  simp only [World.called, deleteDBKey_ok m key w.db h]
  cases g.verbose <;> simp [World.setDB, World.emit]

theorem Delete_empty (g : Flags) (key : String) (w : World) :
    (New "").Delete g key w = (some .bucketNameRequired, w.called (.delete key)) := by
  unfold Mjolnir.Delete
  simp only [World.called, deleteDBKey_empty]
  rfl

theorem txGet_after_delete (db : DB) (n k : String) :
    txGet (DB.setBucket n (Bucket.erase k ((db.bucket n).getD [])) (db.withBucket n)) n k = none := by
  unfold txGet
  rw [DB.bucket_setBucket_self _ n _ _ (DB.bucket_withBucket_self db n)]
  exact Bucket.get_erase _ k

/-- C6. Delete on an accepted (non-empty) bucket name returns no error whether or not the key
is present; when the key is missing, every bucket that existed holds the same records
afterwards and the selected bucket exists; a Read of the key that follows the Delete
fails with the not-found error. -/
theorem delete_then_read_not_found (m : Mjolnir) (g : Flags) (key : String) (w : World)
    (hb : m.bucket ≠ "") :
    (m.Delete g key w).1 = none ∧
    (txGet w.db m.bucket key = none →
      (∀ n b, w.db.bucket n = some b → (m.Delete g key w).2.db.bucket n = some b) ∧
      (m.Delete g key w).2.db.bucket m.bucket = some ((w.db.bucket m.bucket).getD [])) ∧
    (m.Read g key (m.Delete g key w).2).1 = (.null, some (.notFound key m.bucket)) := by
  obtain ⟨h1, h2, -⟩ := Delete_eq m g key w hb
  refine ⟨h1, ?_, ?_⟩
  · intro hk
    have he : Bucket.erase key ((w.db.bucket m.bucket).getD []) = (w.db.bucket m.bucket).getD [] := by
      apply Bucket.erase_of_get_none
      unfold txGet at hk
      cases hdb : w.db.bucket m.bucket with
      | none => rfl
      | some b => rw [hdb] at hk; simpa using hk
    rw [h2, he, DB.setBucket_same _ _ _ (DB.bucket_withBucket_self w.db m.bucket)]
    exact ⟨fun n b hn => DB.bucket_withBucket_of_some w.db m.bucket n b hn,
      DB.bucket_withBucket_self w.db m.bucket⟩
  · have hg : txGet (m.Delete g key w).2.db m.bucket key = none := by
      rw [h2]; exact txGet_after_delete w.db m.bucket key
    unfold Mjolnir.Read
    simp only [World.called, getDBKey_missing m key _ hb hg]
    rfl

/-! ## Update: propagation of errors -/

theorem dbUpdate_rollback {α : Type} (db : DB) (fn : DB → α × Except Err DB) (e : Err)
    (h : (dbUpdate db fn).2.1 = some e) : (dbUpdate db fn).2.2 = db := by
  unfold dbUpdate at h ⊢
  rcases hfn : fn db with ⟨a, r⟩
  rw [hfn] at h
  cases r with
  | ok db' => simp at h
  | error e' => rfl

theorem putDBKey_rollback (m : Mjolnir) (key v : String) (db : DB) (e : Err)
    (h : (m.putDBKey key v db).1 = some e) : (m.putDBKey key v db).2 = db := by
  unfold Mjolnir.putDBKey at h ⊢
  exact dbUpdate_rollback db _ e h

theorem deleteDBKey_rollback (m : Mjolnir) (key : String) (db : DB) (e : Err)
    (h : (m.deleteDBKey key db).1 = some e) : (m.deleteDBKey key db).2 = db := by
  unfold Mjolnir.deleteDBKey at h ⊢
  exact dbUpdate_rollback db _ e h

theorem Create_fst (m : Mjolnir) (g : Flags) (key value : String) (w : World) :
    (m.Create g key value w).1 = (m.putDBKey key value w.db).1 := by
  unfold Mjolnir.Create
  simp only [World.called]
  rcases h : m.putDBKey key value w.db with ⟨_ | e, db⟩ <;> rfl

theorem Create_db (m : Mjolnir) (g : Flags) (key value : String) (w : World) :
    (m.Create g key value w).2.db = (m.putDBKey key value w.db).2 := by
  unfold Mjolnir.Create
  simp only [World.called]
  rcases h : m.putDBKey key value w.db with ⟨_ | e, db⟩
  · cases g.verbose <;> rfl
  · rfl

theorem Create_calls (m : Mjolnir) (g : Flags) (key value : String) (w : World) :
    (m.Create g key value w).2.calls = w.calls ++ [.create key value] := by
  unfold Mjolnir.Create
  simp only [World.called]
  rcases h : m.putDBKey key value w.db with ⟨_ | e, db⟩
  · cases g.verbose <;> rfl
  · rfl

theorem Delete_fst (m : Mjolnir) (g : Flags) (key : String) (w : World) :
    (m.Delete g key w).1 = (m.deleteDBKey key w.db).1 := by
  unfold Mjolnir.Delete
  simp only [World.called]
  rcases h : m.deleteDBKey key w.db with ⟨_ | e, db⟩ <;> rfl

theorem Delete_db (m : Mjolnir) (g : Flags) (key : String) (w : World) :
    (m.Delete g key w).2.db = (m.deleteDBKey key w.db).2 := by
  unfold Mjolnir.Delete
  simp only [World.called]
  rcases h : m.deleteDBKey key w.db with ⟨_ | e, db⟩
  · cases g.verbose <;> rfl
  · rfl

theorem Delete_calls (m : Mjolnir) (g : Flags) (key : String) (w : World) :
    (m.Delete g key w).2.calls = w.calls ++ [.delete key] := by
  unfold Mjolnir.Delete
  simp only [World.called]
  rcases h : m.deleteDBKey key w.db with ⟨_ | e, db⟩
  · cases g.verbose <;> rfl
  · rfl

theorem Update_eq (m : Mjolnir) (g : Flags) (key value : String) (w : World) :
    m.Update g key value w =
      match (m.Delete g key (w.called (.update key value))).1 with
      | some err => (some err, (m.Delete g key (w.called (.update key value))).2)
      | none =>
        match (m.Create g key value (m.Delete g key (w.called (.update key value))).2).1 with
        | some err => (some err, (m.Create g key value (m.Delete g key (w.called (.update key value))).2).2)
        | none => (none, if g.verbose then
            (m.Create g key value (m.Delete g key (w.called (.update key value))).2).2.emit [.updated key]
            else (m.Create g key value (m.Delete g key (w.called (.update key value))).2).2) := by
  unfold Mjolnir.Update
  simp only []
  rcases hd : m.Delete g key (w.called (.update key value)) with ⟨_ | e, w1⟩
  · simp only []
    rcases hc : m.Create g key value w1 with ⟨_ | e, w2⟩ <;> rfl
  · rfl

theorem bucket_ne_of_delete_ok (m : Mjolnir) (g : Flags) (key : String) (w : World)
    (h : (m.Delete g key w).1 = none) : m.bucket ≠ "" := by
  intro hb
  have hm : m = New "" := by cases m; simp_all [New]
  rw [hm, Delete_empty] at h
  cases h

/-- C8. Update propagates the error of either step: when its Delete step fails, Update
returns that error, Create is not entered and the store is unchanged; when Delete
succeeds and Create fails, Update returns the error of Create and the key is absent
from the bucket afterwards; Update returns no error exactly when both steps succeeded. -/
theorem update_error_propagation (m : Mjolnir) (g : Flags) (key value : String) (w : World) :
    (∀ e, (m.Delete g key (w.called (.update key value))).1 = some e →
      (m.Update g key value w).1 = some e ∧
      (m.Update g key value w).2.db = w.db ∧
      (m.Update g key value w).2.calls = w.calls ++ [.update key value, .delete key]) ∧
    (∀ e, (m.Delete g key (w.called (.update key value))).1 = none →
      (m.Create g key value (m.Delete g key (w.called (.update key value))).2).1 = some e →
      (m.Update g key value w).1 = some e ∧
      txGet (m.Update g key value w).2.db m.bucket key = none) ∧
    ((m.Update g key value w).1 = none ↔
      (m.Delete g key (w.called (.update key value))).1 = none ∧
      (m.Create g key value (m.Delete g key (w.called (.update key value))).2).1 = none) := by
  refine ⟨?_, ?_, ?_⟩
  · intro e hd
    rw [Update_eq, hd]
    refine ⟨rfl, ?_, ?_⟩
    · rw [Delete_fst] at hd
      simp only [Delete_db]
      exact deleteDBKey_rollback m key _ e hd
    · simp [Delete_calls, World.called]
  · intro e hd hc
    rw [Update_eq, hd]
    simp only [hc]
    refine ⟨trivial, ?_⟩
    have hb := bucket_ne_of_delete_ok m g key _ hd
    rw [Create_fst] at hc
    rw [Create_db, putDBKey_rollback m key value _ e hc, (Delete_eq m g key _ hb).2.1]
    exact txGet_after_delete _ m.bucket key
  · rw [Update_eq]
    rcases hd : (m.Delete g key (w.called (.update key value))).1 with _ | e
    · rcases hc : (m.Create g key value (m.Delete g key (w.called (.update key value))).2).1 with _ | e
      <;> simp
    · simp

/-! ## Read and Print write no record -/

theorem onlyCreatesBucket_refl (name : String) (db : DB) : OnlyCreatesBucket name db db :=
  ⟨fun _ _ h => h, Or.inl rfl⟩

theorem onlyCreatesBucket_withBucket (name : String) (db : DB) :
    OnlyCreatesBucket name db (db.withBucket name) := by
  refine ⟨fun n b h => DB.bucket_withBucket_of_some db name n b h, ?_⟩
  cases h : db.bucket name with
  | some b => exact Or.inl (DB.withBucket_of_some db name b h)
  | none =>
    refine Or.inr ⟨rfl, ?_, fun n hn => DB.bucket_withBucket_of_ne db name n hn⟩
    rw [DB.bucket_withBucket_self, h]
    rfl

theorem getDBKey_db (m : Mjolnir) (key : String) (db : DB) :
    (m.getDBKey key db).2.2 = db ∨ (m.getDBKey key db).2.2 = db.withBucket m.bucket := by
  by_cases hb : m.bucket = ""
  · have hm : m = New "" := by cases m; simp_all [New]
    rw [hm, getDBKey_empty]
    exact Or.inl rfl
  · cases hk : txGet db m.bucket key with
    | none => rw [getDBKey_missing m key db hb hk]; exact Or.inr rfl
    | some val =>
      rw [getDBKey_present m key val db hb hk]
      cases jsonUnmarshal val <;> exact Or.inl rfl

theorem Read_db (m : Mjolnir) (g : Flags) (key : String) (w : World) :
    (m.Read g key w).2.db = (m.getDBKey key w.db).2.2 := by
  unfold Mjolnir.Read
  simp only [World.called]
  rcases h : m.getDBKey key w.db with ⟨v, _ | e, db⟩
  · simp only []
    cases v.isNil
    · cases g.verbose <;> rfl
    · rfl
  · rfl

theorem Print_db (m : Mjolnir) (g : Flags) (w : World) :
    (m.Print g w).world.db = w.db ∨ (m.Print g w).world.db = w.db.withBucket m.bucket := by
  unfold Mjolnir.Print
  simp only [World.called]
  cases h : createBucketIfNotExists w.db m.bucket with
  | error e => exact Or.inl rfl
  | ok tx =>
    right
    have hb : m.bucket ≠ "" := by
      intro hb
      rw [hb, createBucketIfNotExists_empty] at h
      cases h
    rw [createBucketIfNotExists_ok w.db m.bucket hb] at h
    cases h
    rfl

/-- C10. Read and Print write no record: after either, every bucket that existed holds the
same records, and the store is unchanged unless the selected bucket was missing, in
which case it now exists and is empty.  Neither is a pure read: on a store without the
selected bucket, both leave a store that differs from the one they started on. -/
theorem read_print_frame (m : Mjolnir) (g : Flags) (key : String) (w : World) :
    OnlyCreatesBucket m.bucket w.db (m.Read g key w).2.db ∧
    OnlyCreatesBucket m.bucket w.db (m.Print g w).world.db ∧
    ((New "users").Read scenarioFlags "alice" (openedWorld [])).2.db = [("users", [])] ∧
    ((New "users").Print scenarioFlags (openedWorld [])).world.db = [("users", [])] := by
  refine ⟨?_, ?_, rfl, rfl⟩
  · rw [Read_db]
    rcases getDBKey_db m key w.db with h | h <;> rw [h]
    · exact onlyCreatesBucket_refl _ _
    · exact onlyCreatesBucket_withBucket _ _
  · rcases Print_db m g w with h | h <;> rw [h]
    · exact onlyCreatesBucket_refl _ _
    · exact onlyCreatesBucket_withBucket _ _

/-! ## What Create stores -/

theorem jsonMarshal_eq (v : String) : jsonMarshal v = .ok (encodeString v) := rfl

theorem storedForm_ok (v : String) (x : JValue) (h : jsonUnmarshal v = .ok x) : storedForm v = v := by
  unfold storedForm
  rw [h]

theorem storedForm_error (v : String) (e : Err) (h : jsonUnmarshal v = .error e) :
    storedForm v = encodeString v := by
  unfold storedForm
  rw [h]

theorem jsonUnmarshal_of_not_valid (v : String) (h : jsonValid v = false) :
    jsonUnmarshal v = .error .jsonSyntax := by
  unfold jsonValid at h
  unfold jsonUnmarshal
  cases hp : parseDocument v.data with
  | none => rfl
  | some p => rw [hp] at h; cases h

theorem jsonValid_of_unmarshal_ok (v : String) (x : JValue) (h : jsonUnmarshal v = .ok x) :
    jsonValid v = true := by
  cases hv : jsonValid v with
  | true => rfl
  | false => rw [jsonUnmarshal_of_not_valid v hv] at h; cases h

theorem txGet_of_txPut_ok (db db' : DB) (n k v : String) (b : Bucket)
    (hb : db.bucket n = some b) (h : txPut db n k v = .ok db') : txGet db' n k = some v := by
  unfold txPut at h
  split_ifs at h
  rw [hb] at h
  cases h
  unfold txGet
  rw [DB.bucket_setBucket_self db n _ b hb]
  exact Bucket.get_insert b k v

theorem bucket_ne_of_create_ok (m : Mjolnir) (g : Flags) (key value : String) (w : World)
    (h : (m.Create g key value w).1 = none) : m.bucket ≠ "" := by
  intro hb
  have hm : m = New "" := by cases m; simp_all [New]
  rw [Create_fst, hm, putDBKey_empty] at h
  cases h

theorem txGet_after_create (m : Mjolnir) (g : Flags) (key value : String) (w : World)
    (h : (m.Create g key value w).1 = none) :
    txGet (m.Create g key value w).2.db m.bucket key = some (storedForm value) := by
  have hb := bucket_ne_of_create_ok m g key value w h
  rw [Create_fst, putDBKey_eq m key value w.db hb] at h
  rw [Create_db, putDBKey_eq m key value w.db hb]
  cases hp : txPut (w.db.withBucket m.bucket) m.bucket key (storedForm value) with
  | error e => rw [hp] at h; cases h
  | ok db' => exact txGet_of_txPut_ok _ db' _ _ _ _ (DB.bucket_withBucket_self w.db m.bucket) hp

/-- C7, as amended. After a successful Create the bytes stored under the key are the value
text itself when `json.Unmarshal` accepts it (valid JSON text whose number literals are
all within the range of float64), and the JSON string encoding of the value text when
`json.Unmarshal` rejects it, in particular when it is not valid JSON text. -/
theorem create_stores_text_or_encoding (m : Mjolnir) (g : Flags) (key value : String) (w : World)
    (h : (m.Create g key value w).1 = none) :
    (∀ x, jsonUnmarshal value = .ok x →
      jsonValid value = true ∧ txGet (m.Create g key value w).2.db m.bucket key = some value) ∧
    (∀ e, jsonUnmarshal value = .error e →
      jsonMarshal value = .ok (encodeString value) ∧
      txGet (m.Create g key value w).2.db m.bucket key = some (encodeString value)) ∧
    (jsonValid value = false →
      txGet (m.Create g key value w).2.db m.bucket key = some (encodeString value)) := by
  have hs := txGet_after_create m g key value w h
  refine ⟨fun x hx => ⟨jsonValid_of_unmarshal_ok value x hx, ?_⟩, fun e he => ⟨rfl, ?_⟩, fun hv => ?_⟩
  · rw [hs, storedForm_ok value x hx]
  · rw [hs, storedForm_error value e he]
  · rw [hs, storedForm_error value _ (jsonUnmarshal_of_not_valid value hv)]

set_option exponentiation.threshold 4000 in
/-- C7, counterexample. The value text `1e999` is valid JSON text, yet Create does not
store it byte-identical: `json.Unmarshal` rejects it, because the number is out of the
range of float64, so the quoted text `"1e999"` is stored. -/
theorem create_quotes_valid_json_1e999 :
    jsonValid "1e999" = true ∧
    ((New "users").Create scenarioFlags "alice" "1e999" (openedWorld [])).1 = none ∧
    txGet ((New "users").Create scenarioFlags "alice" "1e999" (openedWorld [])).2.db "users" "alice"
      = some "\"1e999\"" ∧
    txGet ((New "users").Create scenarioFlags "alice" "1e999" (openedWorld [])).2.db "users" "alice"
      ≠ some "1e999" := by
  refine ⟨by decide, by rfl, by rfl, ?_⟩
  have h : txGet ((New "users").Create scenarioFlags "alice" "1e999" (openedWorld [])).2.db "users" "alice"
      = some "\"1e999\"" := by rfl
  rw [h]
  decide

/-- C7, witness: the scenario value is stored as it is, a plain word is stored quoted. -/
theorem create_stores_text_or_encoding_witness :
    txGet ((New "users").Create scenarioFlags "alice" "\x7b\"age\":30\x7d" (openedWorld [])).2.db
      "users" "alice" = some "\x7b\"age\":30\x7d" ∧
    txGet ((New "users").Create scenarioFlags "alice" "hello" (openedWorld [])).2.db
      "users" "alice" = some (encodeString "hello") :=
  ⟨((create_stores_text_or_encoding (New "users") scenarioFlags "alice" "\x7b\"age\":30\x7d"
      (openedWorld []) (by rfl)).1 _ (by rfl)).2,
   ((create_stores_text_or_encoding (New "users") scenarioFlags "alice" "hello"
      (openedWorld []) (by rfl)).2.1 _ (by rfl)).2⟩

/-! ## The value text null -/

/-- C1, failing input. The value text `null` is valid JSON text and Create stores it, but the
Read that follows does not return its decoded form: it fails with the not-found error,
although the key is in the bucket; the invocation `-a -key alice -value null` ends
fatally for the same reason. -/
theorem create_null_then_read_not_found :
    jsonUnmarshal "null" = .ok .null ∧
    ((New "users").Create scenarioFlags "alice" "null" (openedWorld [])).1 = none ∧
    txGet ((New "users").Create scenarioFlags "alice" "null" (openedWorld [])).2.db "users" "alice"
      = some "null" ∧
    ((New "users").Read scenarioFlags "alice"
        ((New "users").Create scenarioFlags "alice" "null" (openedWorld [])).2).1
      = (.null, some (.notFound "alice" "users")) ∧
    (main { scenarioFlags with add := true, value := "null" } none []).1 = 1 := by
  refine ⟨by rfl, by rfl, by rfl, by rfl, by rfl⟩

/-- C5, failing input. After Create of key `alice` with `{"age":30}` and a successful Update of
the key to `null`, the bucket holds `null` under the key, yet Read fails with the
not-found error instead of returning the decoded form of the new value. -/
theorem update_null_then_read_not_found :
    ((New "users").Create scenarioFlags "alice" "\x7b\"age\":30\x7d" (openedWorld [])).1 = none ∧
    ((New "users").Update scenarioFlags "alice" "null"
        ((New "users").Create scenarioFlags "alice" "\x7b\"age\":30\x7d" (openedWorld [])).2).1 = none ∧
    txGet ((New "users").Update scenarioFlags "alice" "null"
        ((New "users").Create scenarioFlags "alice" "\x7b\"age\":30\x7d" (openedWorld [])).2).2.db
      "users" "alice" = some "null" ∧
    ((New "users").Read scenarioFlags "alice"
        ((New "users").Update scenarioFlags "alice" "null"
          ((New "users").Create scenarioFlags "alice" "\x7b\"age\":30\x7d" (openedWorld [])).2).2).1
      = (.null, some (.notFound "alice" "users")) := by
  refine ⟨by rfl, by rfl, by rfl, by rfl⟩

/-- Scenario of the specification: after Create with `{"age":30}` and Update to `{"age":31}`,
Read returns the object decoded from the new value. -/
theorem scenario_update_then_read :
    ((New "users").Read scenarioFlags "alice"
        ((New "users").Update scenarioFlags "alice" "\x7b\"age\":31\x7d"
          ((New "users").Create scenarioFlags "alice" "\x7b\"age\":30\x7d" (openedWorld [])).2).2).1
      = (.object [("age", .number false 31 0)], none) := by
  rfl

/-! ## The CLI driver: the print paths -/

theorem size_le_zero_iff (s : String) : decide (s.utf8ByteSize ≤ 0) = true ↔ s = "" := by
  rw [decide_eq_true_iff, Nat.le_zero, utf8ByteSize_eq_zero_iff]

theorem size_ge_one_iff (s : String) : decide (s.utf8ByteSize ≥ 1) = true ↔ s ≠ "" := by
  rw [decide_eq_true_iff, ← not_iff_not, not_not, ← utf8ByteSize_eq_zero_iff]
  omega

theorem size_le_zero_of_empty : decide (("" : String).utf8ByteSize ≤ 0) = true := by decide

theorem size_le_zero_of_ne (s : String) (h : s ≠ "") : decide (s.utf8ByteSize ≤ 0) = false := by
  rw [decide_eq_false_iff_not]
  intro h0
  exact h ((size_le_zero_iff s).1 (decide_eq_true h0))

theorem size_ge_one_of_ne (s : String) (h : s ≠ "") : decide (s.utf8ByteSize ≥ 1) = true :=
  (size_ge_one_iff s).2 h

theorem PrintBuckets_eq (m : Mjolnir) (w : World) :
    ∃ o, m.PrintBuckets w = .ret () ((w.called .printBuckets).emit o) := by
  unfold Mjolnir.PrintBuckets
  refine ⟨[.header ["Bucket Name"]] ++ (w.db.map (fun nb => Out.row [nb.1]) ++ [.render, .totalBuckets w.db.length]), ?_⟩
  simp [World.emit, World.called]

theorem Print_ok (m : Mjolnir) (g : Flags) (w : World) (h : m.bucket ≠ "") :
    ∃ o, m.Print g w = .ret none (((w.called .print).setDB (w.db.withBucket m.bucket)).emit o) := by
  unfold Mjolnir.Print
  simp only [World.called, createBucketIfNotExists_ok w.db m.bucket h]
  exact ⟨_, rfl⟩

/-- C9. With print set and the earlier checks passed (version unset, store path non-empty,
store opened, key check and value check), an empty bucket name runs PrintBuckets and
nothing else, a non-empty bucket name runs Print on that bucket and nothing else,
whether or not the key is set; both end with status 0, and Create, Delete, Read and
Update are not entered even when their flags are set. -/
theorem print_paths (g : Flags) (db : DB)
    (hv : g.version = false) (hd : g.database ≠ "") (hp : g.print = true)
    (hk : g.read = true ∨ g.delete = true → g.key ≠ "")
    (hval : g.add = true ∨ g.update = true → g.value ≠ "") :
    (g.bucket = "" →
      (main g none db).1 = 0 ∧ (main g none db).2.calls = [.printBuckets] ∧
      (main g none db).2.db = db) ∧
    (g.bucket ≠ "" →
      (main g none db).1 = 0 ∧ (main g none db).2.calls = [.print] ∧
      (main g none db).2.db = db.withBucket g.bucket) := by
  have hd' : ¬ g.database.utf8ByteSize ≤ 0 := by
    intro h0
    exact hd ((size_le_zero_iff _).1 (decide_eq_true h0))
  have c1 : (!g.print && !g.add && !g.delete && !g.read && !g.update) = false := by simp [hp]
  have c2 : ((!g.print || g.read || g.delete) && decide (g.key.utf8ByteSize ≤ 0)) = false := by
    by_cases hke : g.key = ""
    · have hr : g.read = false := by
        cases h : g.read with
        | false => rfl
        | true => exact absurd hke (hk (Or.inl h))
      have hdl : g.delete = false := by
        cases h : g.delete with
        | false => rfl
        | true => exact absurd hke (hk (Or.inr h))
      simp [hp, hr, hdl]
    · rw [size_le_zero_of_ne _ hke, Bool.and_false]
  have c3 : ((g.add || g.update) && decide (g.value.utf8ByteSize ≤ 0)) = false := by
    by_cases hve : g.value = ""
    · have ha : g.add = false := by
        cases h : g.add with
        | false => rfl
        | true => exact absurd hve (hval (Or.inl h))
      have hu : g.update = false := by
        cases h : g.update with
        | false => rfl
        | true => exact absurd hve (hval (Or.inr h))
      simp [ha, hu]
    · rw [size_le_zero_of_ne _ hve, Bool.and_false]
  constructor
  · intro hb
    obtain ⟨o, ho⟩ := PrintBuckets_eq (New g.bucket)
      { db := db, opened := true, closed := false, calls := [], out := [] }
    have c4 : (g.print && decide (g.bucket.utf8ByteSize ≤ 0)) = true := by
      rw [hp, hb]; rfl
    unfold main mainOpened
    simp only [hv, hd', c1, c2, c3, c4, ho, Res.thenExit, if_true, if_false, Bool.false_eq_true]
    simp [World.emit, World.called]
  · intro hb
    obtain ⟨o, ho⟩ := Print_ok (New g.bucket) g
      { db := db, opened := true, closed := false, calls := [], out := [] } hb
    have c4 : (g.print && decide (g.bucket.utf8ByteSize ≤ 0)) = false := by
      rw [size_le_zero_of_ne _ hb, Bool.and_false]
    have c5 : (!g.print && decide (g.bucket.utf8ByteSize ≤ 0)) = false := by simp [hp]
    unfold main mainOpened
    simp only [hv, hd', c1, c2, c3, c4, c5, if_false, Bool.false_eq_true]
    by_cases hke : g.key = ""
    · have c6 : (g.print && decide (g.bucket.utf8ByteSize ≥ 1) && decide (g.key.utf8ByteSize ≤ 0)) = true := by
        rw [hp, size_ge_one_of_ne _ hb, hke]; rfl
      simp only [c6, if_true, ho, Res.thenExit]
      simp [World.emit, World.called, World.setDB, New]
    · have c6 : (g.print && decide (g.bucket.utf8ByteSize ≥ 1) && decide (g.key.utf8ByteSize ≤ 0)) = false := by
        rw [size_le_zero_of_ne _ hke, Bool.and_false]
      have c7 : (g.print && decide (g.key.utf8ByteSize ≥ 1) && decide (g.bucket.utf8ByteSize ≥ 1)) = true := by
        rw [hp, size_ge_one_of_ne _ hb, size_ge_one_of_ne _ hke]; rfl
      simp only [c6, c7, if_true, if_false, Bool.false_eq_true, ho, Res.thenExit]
      simp [World.emit, World.called, World.setDB, New]

/-- C9, witness: with print and add both set and a bucket name, only Print is entered; with
print set and no bucket name, only PrintBuckets is entered. -/
theorem print_paths_witness :
    ((main { scenarioFlags with print := true, add := true } none [("users", [])]).1 = 0 ∧
      (main { scenarioFlags with print := true, add := true } none [("users", [])]).2.calls = [.print]) ∧
    ((main { scenarioFlags with print := true, bucket := "" } none [("users", [])]).1 = 0 ∧
      (main { scenarioFlags with print := true, bucket := "" } none [("users", [])]).2.calls
        = [.printBuckets]) :=
  ⟨⟨((print_paths { scenarioFlags with print := true, add := true } [("users", [])]
        rfl (by decide) rfl (by decide) (by decide)).2 (by decide)).1,
    ((print_paths { scenarioFlags with print := true, add := true } [("users", [])]
        rfl (by decide) rfl (by decide) (by decide)).2 (by decide)).2.1⟩,
   ⟨((print_paths { scenarioFlags with print := true, bucket := "" } [("users", [])]
        rfl (by decide) rfl (by decide) (by decide)).1 (by decide)).1,
    ((print_paths { scenarioFlags with print := true, bucket := "" } [("users", [])]
        rfl (by decide) rfl (by decide) (by decide)).1 (by decide)).2.1⟩⟩

/-! ## The CLI driver: the key check and the exit paths -/

/-- C3, as amended. With version unset and a store path, when at least one of add, delete,
read, update is set, the key is empty, and print is unset or read or delete is set,
the invocation ends fatally with status 1 and no Record Accessor operation is entered,
whether or not the store opens. -/
theorem empty_key_is_fatal (g : Flags) (openErr : Option Err) (db : DB)
    (hv : g.version = false) (hd : g.database ≠ "")
    (_hop : g.add = true ∨ g.delete = true ∨ g.read = true ∨ g.update = true)
    (hk : g.key = "")
    (hg : g.print = false ∨ g.read = true ∨ g.delete = true) :
    (main g openErr db).1 = 1 ∧ (main g openErr db).2.calls = [] := by
  have hd' : ¬ g.database.utf8ByteSize ≤ 0 := by
    intro h0
    exact hd ((size_le_zero_iff _).1 (decide_eq_true h0))
  have c2 : ((!g.print || g.read || g.delete) && decide (g.key.utf8ByteSize ≤ 0)) = true := by
    rw [hk]
    rcases hg with h | h | h <;> rw [h] <;> simp <;> rfl
  unfold main
  simp only [hv, hd', if_false, Bool.false_eq_true]
  cases openErr with
  | some err => exact ⟨rfl, rfl⟩
  | none =>
    unfold mainOpened
    simp only [c2, if_true]
    by_cases c1 : (!g.print && !g.add && !g.delete && !g.read && !g.update) = true
    · simp only [c1, if_true]
      exact ⟨rfl, rfl⟩
    · simp only [c1, if_false]
      exact ⟨rfl, rfl⟩

/-- C3, counterexample. With print and add set, a bucket name, a value and an empty key, the
key check is skipped: Print is entered and the invocation ends with status 0. -/
theorem print_with_add_skips_key_check :
    ({ scenarioFlags with print := true, add := true, key := "" } : Flags).version = false ∧
    ({ scenarioFlags with print := true, add := true, key := "" } : Flags).database ≠ "" ∧
    ({ scenarioFlags with print := true, add := true, key := "" } : Flags).add = true ∧
    ({ scenarioFlags with print := true, add := true, key := "" } : Flags).key = "" ∧
    ({ scenarioFlags with print := true, add := true, key := "" } : Flags).bucket ≠ "" ∧
    (main { scenarioFlags with print := true, add := true, key := "" } none [("users", [])]).1 = 0 ∧
    (main { scenarioFlags with print := true, add := true, key := "" } none [("users", [])]).2.calls
      = [.print] := by
  refine ⟨rfl, by decide, rfl, rfl, by decide, by rfl, by rfl⟩

/-- C3, witness: add without a key is fatal and enters no operation. -/
theorem empty_key_is_fatal_witness :
    (main { scenarioFlags with add := true, key := "" } none [("users", [])]).1 = 1 ∧
    (main { scenarioFlags with add := true, key := "" } none [("users", [])]).2.calls = [] :=
  empty_key_is_fatal { scenarioFlags with add := true, key := "" } none [("users", [])]
    rfl (by decide) (Or.inl rfl) rfl (Or.inl rfl)

/-- C4, failing input. The store handle is closed only when `main` returns: the invocations
`-p` (exit 0 after Print), `-p` without bucket (exit 0 after PrintBuckets), no operation
flag (fatal validation) and `-r` on a missing key (fatal operation error) all end with
the store opened and never closed, while `-a` returns and closes it. -/
theorem exit_leaves_store_open :
    ((main { scenarioFlags with print := true } none []).1 = 0 ∧
      (main { scenarioFlags with print := true } none []).2.opened = true ∧
      (main { scenarioFlags with print := true } none []).2.closed = false) ∧
    ((main { scenarioFlags with print := true, bucket := "" } none []).1 = 0 ∧
      (main { scenarioFlags with print := true, bucket := "" } none []).2.opened = true ∧
      (main { scenarioFlags with print := true, bucket := "" } none []).2.closed = false) ∧
    ((main scenarioFlags none []).1 = 1 ∧
      (main scenarioFlags none []).2.opened = true ∧
      (main scenarioFlags none []).2.closed = false) ∧
    ((main { scenarioFlags with read := true } none []).1 = 1 ∧
      (main { scenarioFlags with read := true } none []).2.opened = true ∧
      (main { scenarioFlags with read := true } none []).2.closed = false) ∧
    ((main { scenarioFlags with add := true } none []).1 = 0 ∧
      (main { scenarioFlags with add := true } none []).2.opened = true ∧
      (main { scenarioFlags with add := true } none []).2.closed = true) := by
  refine ⟨⟨?_, ?_, ?_⟩, ⟨?_, ?_, ?_⟩, ⟨?_, ?_, ?_⟩, ⟨?_, ?_, ?_⟩, ⟨?_, ?_, ?_⟩⟩ <;> rfl

/-! ## The CLI driver: the operation blocks -/

theorem Read_calls (m : Mjolnir) (g : Flags) (key : String) (w : World) :
    (m.Read g key w).2.calls = w.calls ++ [.read key] := by
  unfold Mjolnir.Read
  simp only [World.called]
  rcases h : m.getDBKey key w.db with ⟨v, _ | e, db⟩
  · simp only []
    cases v.isNil
    · cases g.verbose <;> rfl
    · rfl
  · rfl

theorem Update_calls (m : Mjolnir) (g : Flags) (key value : String) (w : World) :
    ((m.Update g key value w).1 ≠ none ∧
      ((m.Update g key value w).2.calls = w.calls ++ [.update key value, .delete key] ∨
       (m.Update g key value w).2.calls = w.calls ++ [.update key value, .delete key, .create key value])) ∨
    ((m.Update g key value w).1 = none ∧
      (m.Update g key value w).2.calls = w.calls ++ [.update key value, .delete key, .create key value]) := by
  rw [Update_eq]
  rcases hd : (m.Delete g key (w.called (.update key value))).1 with _ | e
  · rcases hc : (m.Create g key value (m.Delete g key (w.called (.update key value))).2).1 with _ | e
    · right
      refine ⟨rfl, ?_⟩
      cases g.verbose <;> simp [World.emit, Create_calls, Delete_calls, World.called]
    · left
      refine ⟨by simp, Or.inr ?_⟩
      simp [Create_calls, Delete_calls, World.called]
  · left
    refine ⟨by simp, Or.inl ?_⟩
    simp [Delete_calls, World.called]

theorem runsCalls_bind (w : World) (r : Res Unit) (f : Unit → World → Res Unit) (ops1 ops2 : List Call)
    (h1 : RunsCalls w r ops1)
    (h2 : ∀ w', w'.calls = w.calls ++ ops1 → RunsCalls w' (f () w') ops2) :
    RunsCalls w (r.bind f) (ops1 ++ ops2) := by
  cases r with
  | ret a w' =>
    have h := h2 w' h1
    unfold Res.bind
    simp only []
    unfold RunsCalls at h ⊢
    cases hf : f () w' with
    | ret b w'' =>
      rw [hf] at h
      simp only [] at h ⊢
      rw [h, h1, List.append_assoc]
    | exit code w'' =>
      rw [hf] at h
      simp only [] at h ⊢
      obtain ⟨hc, done, hne, hpre, hcalls⟩ := h
      refine ⟨hc, ops1 ++ done, by simp [hne], ?_, ?_⟩
      · exact (List.prefix_append_right_inj ops1).2 hpre
      · rw [hcalls, h1, List.append_assoc]
  | exit code w' =>
    unfold Res.bind
    unfold RunsCalls at h1 ⊢
    simp only [] at h1 ⊢
    obtain ⟨hc, done, hne, hpre, hcalls⟩ := h1
    exact ⟨hc, done, hne, hpre.trans (List.prefix_append ops1 ops2), hcalls⟩

theorem runsCalls_PrintRecord (m : Mjolnir) (g : Flags) (w : World) :
    RunsCalls w (m.PrintRecord g w) [.read g.key] := by
  unfold Mjolnir.PrintRecord
  simp only []
  have hc := Read_calls m g g.key (w.emit [.header ["Key", "Value"]])
  rcases hr : m.Read g g.key (w.emit [.header ["Key", "Value"]]) with ⟨⟨v, _ | e⟩, w'⟩
  · rw [hr] at hc
    simp only [RunsCalls, World.emit] at hc ⊢
    exact hc
  · rw [hr] at hc
    simp only [RunsCalls, fatalln, World.emit] at hc ⊢
    exact ⟨trivial, [.read g.key], by simp, List.prefix_refl _, hc⟩

theorem runsCalls_prefixed (w w1 : World) (r : Res Unit) (pre ops : List Call) (hpre : pre ≠ [])
    (hw : w1.calls = w.calls ++ pre) (h : RunsCalls w1 r ops) : RunsCalls w r (pre ++ ops) := by
  unfold RunsCalls at h ⊢
  cases r with
  | ret a w' =>
    simp only [] at h ⊢
    rw [h, hw, List.append_assoc]
  | exit code w' =>
    simp only [] at h ⊢
    obtain ⟨hc, done, -, hp, hcalls⟩ := h
    refine ⟨hc, pre ++ done, by simp [hpre], (List.prefix_append_right_inj pre).2 hp, ?_⟩
    rw [hcalls, hw, List.append_assoc]

theorem runsCalls_mainAdd (m : Mjolnir) (g : Flags) (w : World) :
    RunsCalls w (mainAdd m g w)
      (if g.add then [.create g.key g.value, .read g.key] else []) := by
  unfold mainAdd
  cases g.add with
  | false => simp [RunsCalls]
  | true =>
    simp only [if_true]
    have hc := Create_calls m g g.key g.value w
    rcases hr : m.Create g g.key g.value w with ⟨_ | e, w'⟩
    · rw [hr] at hc
      simp only [] at hc ⊢
      exact runsCalls_prefixed w w' _ [.create g.key g.value] [.read g.key] (by simp) hc
        (runsCalls_PrintRecord m g w')
    · rw [hr] at hc
      simp only [RunsCalls, fatalln, World.emit] at hc ⊢
      exact ⟨trivial, [.create g.key g.value], by simp, by simp, hc⟩

theorem runsCalls_mainDelete (m : Mjolnir) (g : Flags) (w : World) :
    RunsCalls w (mainDelete m g w) (if g.delete then [.delete g.key] else []) := by
  unfold mainDelete
  cases g.delete with
  | false => simp [RunsCalls]
  | true =>
    simp only [if_true]
    have hc := Delete_calls m g g.key w
    rcases hr : m.Delete g g.key w with ⟨_ | e, w'⟩
    · rw [hr] at hc
      simp only [RunsCalls] at hc ⊢
      exact hc
    · rw [hr] at hc
      simp only [RunsCalls, fatalln, World.emit] at hc ⊢
      exact ⟨trivial, [.delete g.key], by simp, List.prefix_refl _, hc⟩

theorem runsCalls_mainRead (m : Mjolnir) (g : Flags) (w : World) :
    RunsCalls w (mainRead m g w) (if g.read then [.read g.key] else []) := by
  unfold mainRead
  cases g.read with
  | false => simp [RunsCalls]
  | true => simpa using runsCalls_PrintRecord m g w

theorem runsCalls_mainUpdate (m : Mjolnir) (g : Flags) (w : World) :
    RunsCalls w (mainUpdate m g w)
      (if g.update then [.update g.key g.value, .delete g.key, .create g.key g.value, .read g.key]
        else []) := by
  unfold mainUpdate
  cases g.update with
  | false => simp [RunsCalls]
  | true =>
    simp only [if_true]
    have hc := Update_calls m g g.key g.value w
    rcases hr : m.Update g g.key g.value w with ⟨_ | e, w'⟩
    · rw [hr] at hc
      simp only [] at hc ⊢
      rcases hc with ⟨hne, -⟩ | ⟨-, hc⟩
      · exact absurd rfl hne
      · exact runsCalls_prefixed w w' _ [.update g.key g.value, .delete g.key, .create g.key g.value]
          [.read g.key] (by simp) hc (runsCalls_PrintRecord m g w')
    · rw [hr] at hc
      simp only [RunsCalls, fatalln, World.emit] at hc ⊢
      rcases hc with ⟨-, hc | hc⟩ | ⟨hn, -⟩
      · exact ⟨trivial, [.update g.key g.value, .delete g.key], by simp,
          ⟨[.create g.key g.value, .read g.key], rfl⟩, hc⟩
      · exact ⟨trivial, [.update g.key g.value, .delete g.key, .create g.key g.value], by simp,
          ⟨[.read g.key], rfl⟩, hc⟩
      · cases hn

theorem runsCalls_mainDispatch (m : Mjolnir) (g : Flags) (w : World) :
    RunsCalls w (mainDispatch m g w) (dispatchCalls g) := by
  unfold mainDispatch dispatchCalls
  refine runsCalls_bind w _ _ _ _ (runsCalls_mainAdd m g w) (fun w1 _ => ?_)
  refine runsCalls_bind w1 _ _ _ _ (runsCalls_mainDelete m g w1) (fun w2 _ => ?_)
  exact runsCalls_bind w2 _ _ _ _ (runsCalls_mainRead m g w2) (fun w3 _ => runsCalls_mainUpdate m g w3)

theorem mainOpened_eq_dispatch (g : Flags) (w : World)
    (hp : g.print = false) (hb : g.bucket ≠ "") (hk : g.key ≠ "")
    (hval : g.add = true ∨ g.update = true → g.value ≠ "")
    (hop : g.add = true ∨ g.delete = true ∨ g.read = true ∨ g.update = true) :
    mainOpened g w = mainDispatch (New g.bucket) g w := by
  have c1 : (!g.print && !g.add && !g.delete && !g.read && !g.update) = false := by
    rcases hop with h | h | h | h <;> simp [h]
  have c2 : ((!g.print || g.read || g.delete) && decide (g.key.utf8ByteSize ≤ 0)) = false := by
    rw [size_le_zero_of_ne _ hk, Bool.and_false]
  have c3 : ((g.add || g.update) && decide (g.value.utf8ByteSize ≤ 0)) = false := by
    by_cases hve : g.value = ""
    · have ha : g.add = false := by
        cases h : g.add with
        | false => rfl
        | true => exact absurd hve (hval (Or.inl h))
      have hu : g.update = false := by
        cases h : g.update with
        | false => rfl
        | true => exact absurd hve (hval (Or.inr h))
      simp [ha, hu]
    · rw [size_le_zero_of_ne _ hve, Bool.and_false]
  have c4 : (g.print && decide (g.bucket.utf8ByteSize ≤ 0)) = false := by
    rw [hp, Bool.false_and]
  have c5 : (!g.print && decide (g.bucket.utf8ByteSize ≤ 0)) = false := by
    rw [size_le_zero_of_ne _ hb, Bool.and_false]
  have c6 : (g.print && decide (g.bucket.utf8ByteSize ≥ 1) && decide (g.key.utf8ByteSize ≤ 0)) = false := by
    rw [hp]; rfl
  have c7 : (g.print && decide (g.key.utf8ByteSize ≥ 1) && decide (g.bucket.utf8ByteSize ≥ 1)) = false := by
    rw [hp]; rfl
  unfold mainOpened
  simp only [c1, c2, c3, c4, c5, c6, c7, if_false, Bool.false_eq_true]

theorem dispatchCalls_ne_nil (g : Flags)
    (hop : g.add = true ∨ g.delete = true ∨ g.read = true ∨ g.update = true) :
    dispatchCalls g ≠ [] := by
  unfold dispatchCalls
  rcases hop with h | h | h | h <;> simp [h]

/-- C2, as amended. For every flag configuration that passes validation with print unset
(version unset, store path, bucket and key non-empty, value non-empty when add or
update is set, an operation flag set) and whose store opens, the operation blocks of
all the flags that are set run one after the other, in the order add, delete, read,
update, until one fails: the operations entered are a non-empty initial part of
`dispatchCalls`, and all of `dispatchCalls` when the invocation ends with status 0,
in which case the store has been closed.  The status is 0 or 1. -/
theorem dispatch_runs_every_selected_operation (g : Flags) (db : DB)
    (hv : g.version = false) (hd : g.database ≠ "") (hp : g.print = false)
    (hb : g.bucket ≠ "") (hk : g.key ≠ "")
    (hval : g.add = true ∨ g.update = true → g.value ≠ "")
    (hop : g.add = true ∨ g.delete = true ∨ g.read = true ∨ g.update = true) :
    (main g none db).2.calls <+: dispatchCalls g ∧
    (main g none db).2.calls ≠ [] ∧
    ((main g none db).1 = 0 →
      (main g none db).2.calls = dispatchCalls g ∧ (main g none db).2.closed = true) ∧
    ((main g none db).1 = 0 ∨ (main g none db).1 = 1) := by
  have hd' : ¬ g.database.utf8ByteSize ≤ 0 := by
    intro h0
    exact hd ((size_le_zero_iff _).1 (decide_eq_true h0))
  have hrun := runsCalls_mainDispatch (New g.bucket) g
    { db := db, opened := true, closed := false, calls := [], out := [] }
  unfold main
  simp only [hv, hd', if_false, Bool.false_eq_true, mainOpened_eq_dispatch g _ hp hb hk hval hop]
  cases hr : mainDispatch (New g.bucket) g
      { db := db, opened := true, closed := false, calls := [], out := [] } with
  | ret a w' =>
    rw [hr] at hrun
    simp only [RunsCalls, List.nil_append] at hrun
    simp only [hrun]
    refine ⟨List.prefix_refl _, dispatchCalls_ne_nil g hop, ?_, ?_⟩ <;> simp
  | exit code w' =>
    rw [hr] at hrun
    simp only [RunsCalls, List.nil_append] at hrun
    obtain ⟨hc, done, hne, hpre, hcalls⟩ := hrun
    subst hc
    simp only [hcalls]
    refine ⟨hpre, hne, ?_, ?_⟩ <;> simp

/-- C2, counterexample. With add and delete both set on a valid configuration, Create, Read
and Delete are all entered: more than one operation is executed, and Delete runs
after the Create path. -/
theorem add_and_delete_both_run :
    (main { scenarioFlags with add := true, delete := true } none []).1 = 0 ∧
    (main { scenarioFlags with add := true, delete := true } none []).2.calls
      = [.create "alice" "\x7b\"age\":30\x7d", .read "alice", .delete "alice"] ∧
    (main { scenarioFlags with add := true } none []).2.calls
      = [.create "alice" "\x7b\"age\":30\x7d", .read "alice"] := by
  refine ⟨by rfl, by rfl, by rfl⟩

/-- C2, witness: the configuration with add and delete set passes validation, and the
operations it enters are an initial part of Create, Read, Delete. -/
theorem dispatch_runs_every_selected_operation_witness :
    (main { scenarioFlags with add := true, delete := true } none []).2.calls
      <+: [.create "alice" "\x7b\"age\":30\x7d", .read "alice", .delete "alice"] ∧
    (main { scenarioFlags with add := true, delete := true } none []).2.calls ≠ [] :=
  ⟨(dispatch_runs_every_selected_operation { scenarioFlags with add := true, delete := true } []
      rfl (by decide) rfl (by decide) (by decide) (by decide) (Or.inl rfl)).1,
   (dispatch_runs_every_selected_operation { scenarioFlags with add := true, delete := true } []
      rfl (by decide) rfl (by decide) (by decide) (by decide) (Or.inl rfl)).2.1⟩

/-! ## Instances of the Record Accessor theorems -/

/-- C6, witness: deleting the stored key `alice` succeeds and the Read that follows fails
with the not-found error; deleting it from an empty store succeeds as well and leaves
the bucket `users` in existence, empty. -/
theorem delete_then_read_not_found_witness :
    (((New "users").Delete scenarioFlags "alice"
        (openedWorld [("users", [("alice", "\x7b\"age\":30\x7d")])])).1 = none ∧
      ((New "users").Read scenarioFlags "alice"
        ((New "users").Delete scenarioFlags "alice"
          (openedWorld [("users", [("alice", "\x7b\"age\":30\x7d")])])).2).1
        = (.null, some (.notFound "alice" "users"))) ∧
    (((New "users").Delete scenarioFlags "alice" (openedWorld [])).1 = none ∧
      ((New "users").Delete scenarioFlags "alice" (openedWorld [])).2.db.bucket "users" = some []) :=
  ⟨⟨(delete_then_read_not_found (New "users") scenarioFlags "alice"
        (openedWorld [("users", [("alice", "\x7b\"age\":30\x7d")])]) (by decide)).1,
    (delete_then_read_not_found (New "users") scenarioFlags "alice"
        (openedWorld [("users", [("alice", "\x7b\"age\":30\x7d")])]) (by decide)).2.2⟩,
   ⟨(delete_then_read_not_found (New "users") scenarioFlags "alice" (openedWorld [])
        (by decide)).1,
    ((delete_then_read_not_found (New "users") scenarioFlags "alice" (openedWorld [])
        (by decide)).2.1 (by rfl)).2⟩⟩

/-- C8, witness: with no bucket name the Delete step of Update fails, Update returns its
error and leaves the store as it was, entering Update and Delete only; with an empty
key Delete succeeds and Create fails, Update returns the error of Create and the key
is absent. -/
theorem update_error_propagation_witness :
    (((New "").Update scenarioFlags "alice" "1"
        (openedWorld [("users", [("alice", "0")])])).1 = some .bucketNameRequired ∧
      ((New "").Update scenarioFlags "alice" "1"
        (openedWorld [("users", [("alice", "0")])])).2.db = [("users", [("alice", "0")])] ∧
      ((New "").Update scenarioFlags "alice" "1"
        (openedWorld [("users", [("alice", "0")])])).2.calls
        = [.update "alice" "1", .delete "alice"]) ∧
    (((New "users").Update scenarioFlags "" "1"
        (openedWorld [("users", [("alice", "0")])])).1 = some .keyRequired ∧
      txGet ((New "users").Update scenarioFlags "" "1"
        (openedWorld [("users", [("alice", "0")])])).2.db "users" "" = none) :=
  ⟨(update_error_propagation (New "") scenarioFlags "alice" "1"
      (openedWorld [("users", [("alice", "0")])])).1 .bucketNameRequired (by rfl),
   (update_error_propagation (New "users") scenarioFlags "" "1"
      (openedWorld [("users", [("alice", "0")])])).2.1 .keyRequired (by rfl) (by rfl)⟩

/-! ## Round trip through the JSON encoding of a string -/

theorem hexVal_hexDigit (k : Nat) (h : k < 16) : hexVal (hexDigit k) = some k := by
  interval_cases k <;> rfl

theorem char_eq_of_toNat (c d : Char) (h : c.toNat = d.toNat) : c = d := by
  have := congrArg Char.ofNat h
  simpa [Char.ofNat_toNat] using this

theorem scanString_u4 (a b c d : Char) (va vb vc vd : Nat) (tail acc : List Char)
    (ha : hexVal a = some va) (hb : hexVal b = some vb) (hc : hexVal c = some vc)
    (hd : hexVal d = some vd)
    (hlt : ((va * 16 + vb) * 16 + vc) * 16 + vd < 0xD800) :
    scanString ('\\' :: 'u' :: a :: b :: c :: d :: tail) .plain none acc
      = scanString tail .plain none (Char.ofNat (((va * 16 + vb) * 16 + vc) * 16 + vd) :: acc) := by
  have e1 : ('\\' : Char) ≠ '"' := by decide
  have e2 : ¬ (1 < 1) := by decide
  simp only [scanString, e1, if_false, if_true, ha, hb, hc, hd, flushPending, Option.isSome,
    Nat.zero_mul, Nat.zero_add]
  simp only [show (1 : Nat) < 4 from by decide, show (1 : Nat) < 4 - 1 from by decide,
    show (1 : Nat) < 4 - 1 - 1 from by decide, show ¬ ((1 : Nat) < 4 - 1 - 1 - 1) from by decide,
    if_true, if_false]
  have n1 : ¬ (0xD800 ≤ ((va * 16 + vb) * 16 + vc) * 16 + vd ∧
      ((va * 16 + vb) * 16 + vc) * 16 + vd < 0xDC00) := by omega
  have n2 : ¬ (0xDC00 ≤ ((va * 16 + vb) * 16 + vc) * 16 + vd ∧
      ((va * 16 + vb) * 16 + vc) * 16 + vd < 0xE000) := by omega
  simp [n1, n2]

theorem hexVal_zero : hexVal '0' = some 0 := by rfl

theorem hexVal_two : hexVal '2' = some 2 := by rfl

theorem scanString_encodeChar (c : Char) (tail acc : List Char) :
    scanString (encodeChar c ++ tail) .plain none acc = scanString tail .plain none (c :: acc) := by
  unfold encodeChar
  split_ifs with h1 h2 h3 h4 h5 h6 h7 h8 h9
  · subst h1; rfl
  · subst h2; rfl
  · have : c = Char.ofNat 8 := char_eq_of_toNat _ _ h3
    subst this; rfl
  · have : c = Char.ofNat 12 := char_eq_of_toNat _ _ h4
    subst this; rfl
  · subst h5; rfl
  · subst h6; rfl
  · subst h7; rfl
  · have hn : c.toNat < 128 := by
      rcases h8 with h | h | h | h
      · omega
      · subst h; decide
      · subst h; decide
      · subst h; decide
    have hq : c.toNat / 16 < 16 := by omega
    have hr : c.toNat % 16 < 16 := by omega
    have h := scanString_u4 '0' '0' (hexDigit (c.toNat / 16)) (hexDigit (c.toNat % 16)) 0 0
      (c.toNat / 16) (c.toNat % 16) tail acc hexVal_zero hexVal_zero
      (hexVal_hexDigit _ hq) (hexVal_hexDigit _ hr) (by omega)
    have hv : ((0 * 16 + 0) * 16 + c.toNat / 16) * 16 + c.toNat % 16 = c.toNat := by omega
    rw [hv, Char.ofNat_toNat] at h
    exact h
  · have hr : c.toNat % 16 < 16 := by omega
    have h := scanString_u4 '2' '0' '2' (hexDigit (c.toNat % 16)) 2 0 2 (c.toNat % 16) tail acc
      hexVal_two hexVal_zero hexVal_two (hexVal_hexDigit _ hr) (by omega)
    have hv : ((2 * 16 + 0) * 16 + 2) * 16 + c.toNat % 16 = c.toNat := by omega
    rw [hv, Char.ofNat_toNat] at h
    exact h
  · have h20 : ¬ c.toNat < 0x20 := fun h => h8 (Or.inl h)
    show scanString (c :: tail) .plain none acc = scanString tail .plain none (c :: acc)
    simp only [scanString, h2, h1, if_false, h20, flushPending]

theorem scanString_encodeChars (cs tail acc : List Char) :
    scanString (encodeChars cs ++ tail) .plain none acc
      = scanString tail .plain none (cs.reverse ++ acc) := by
  induction cs generalizing acc with
  | nil => rfl
  | cons c cs ih =>
    simp only [encodeChars, List.append_assoc, scanString_encodeChar, ih, List.reverse_cons,
      List.singleton_append]

/-- Decoding the encoding of a Go string gives the string back. -/
theorem jsonUnmarshal_encodeString (v : String) :
    jsonUnmarshal (encodeString v) = .ok (.string v) := by
  have hs : scanString (encodeChars v.data ++ ['"']) .plain none [] = some (v, []) := by
    rw [scanString_encodeChars]
    simp [scanString, flushPending]
  unfold jsonUnmarshal parseDocument encodeString
  have hq : isSpace '"' = false := by decide
  simp only [skipSpace, hq, Bool.false_eq_true, if_false, parseValue, if_true, hs, Option.map]
  rfl

theorem Read_of_stored (m : Mjolnir) (g : Flags) (key v : String) (w : World) (hb : m.bucket ≠ "")
    (hs : txGet w.db m.bucket key = some (storedForm v)) :
    (m.Read g key w).1 =
      match jsonUnmarshal v with
      | .ok x => if x.isNil then (.null, some (.notFound key m.bucket)) else (x, none)
      | .error _ => (.string v, none) := by
  unfold Mjolnir.Read
  simp only [World.called, getDBKey_present m key _ w.db hb hs]
  cases hu : jsonUnmarshal v with
  | ok x =>
    simp only [storedForm_ok v x hu, hu]
    cases hx : x.isNil
    · cases g.verbose <;> simp
    · simp
  | error e =>
    simp only [storedForm_error v e hu, jsonUnmarshal_encodeString]
    cases g.verbose <;> simp [JValue.isNil]

theorem Create_ok (m : Mjolnir) (g : Flags) (key value : String) (w : World)
    (hb : m.bucket ≠ "") (hk : key ≠ "") (hks : key.utf8ByteSize ≤ MaxKeySize)
    (hvs : (storedForm value).utf8ByteSize ≤ MaxValueSize) :
    (m.Create g key value w).1 = none := by
  have h0 : ¬ key.utf8ByteSize = 0 := fun e => hk ((utf8ByteSize_eq_zero_iff key).1 e)
  rw [Create_fst, putDBKey_eq m key value w.db hb]
  unfold txPut
  rw [if_neg h0, if_neg (by omega), if_neg (by omega), DB.bucket_withBucket_self]

/-- Round trip of Create and Read, for every store state, non-empty bucket name, non-empty
key within the key size of the engine and value text within its value size: Create
succeeds, and the Read that follows returns the decoded form of the value text when
`json.Unmarshal` accepts it and the decoded form is not null, and the value text itself
as a string when `json.Unmarshal` rejects it.  When the decoded form is null, Read
fails with the not-found error. -/
theorem create_then_read_roundtrip (m : Mjolnir) (g : Flags) (key value : String) (w : World)
    (hb : m.bucket ≠ "") (hk : key ≠ "") (hks : key.utf8ByteSize ≤ MaxKeySize)
    (hvs : (storedForm value).utf8ByteSize ≤ MaxValueSize) :
    (m.Create g key value w).1 = none ∧
    (∀ x, jsonUnmarshal value = .ok x → x.isNil = false →
      (m.Read g key (m.Create g key value w).2).1 = (x, none)) ∧
    (∀ e, jsonUnmarshal value = .error e →
      (m.Read g key (m.Create g key value w).2).1 = (.string value, none)) ∧
    (∀ x, jsonUnmarshal value = .ok x → x.isNil = true →
      (m.Read g key (m.Create g key value w).2).1 = (.null, some (.notFound key m.bucket))) := by
  have hc := Create_ok m g key value w hb hk hks hvs
  have hr := Read_of_stored m g key value (m.Create g key value w).2 hb
    (txGet_after_create m g key value w hc)
  refine ⟨hc, fun x hx hn => ?_, fun e he => ?_, fun x hx hn => ?_⟩
  · rw [hr, hx]; simp [hn]
  · rw [hr, he]
  · rw [hr, hx]; simp [hn]

theorem Update_ok_stored (m : Mjolnir) (g : Flags) (key value : String) (w : World)
    (h : (m.Update g key value w).1 = none) :
    m.bucket ≠ "" ∧ txGet (m.Update g key value w).2.db m.bucket key = some (storedForm value) := by
  rw [Update_eq] at h ⊢
  rcases hd : (m.Delete g key (w.called (.update key value))).1 with _ | e
  · rw [hd] at h
    simp only [] at h ⊢
    rcases hc : (m.Create g key value (m.Delete g key (w.called (.update key value))).2).1 with _ | e
    · simp only []
      refine ⟨bucket_ne_of_delete_ok m g key _ hd, ?_⟩
      have hs := txGet_after_create m g key value _ hc
      cases g.verbose
      · exact hs
      · exact hs
    · rw [hc] at h
      cases h
  · rw [hd] at h
    cases h

/-- Round trip of Update and Read: after a successful Update of a key to a value text, on
any store state, the Read that follows returns the decoded form of the value text
when `json.Unmarshal` accepts it and the decoded form is not null, and the value text
itself as a string when `json.Unmarshal` rejects it.  When the decoded form is null,
Read fails with the not-found error. -/
theorem update_then_read_roundtrip (m : Mjolnir) (g : Flags) (key value : String) (w : World)
    (h : (m.Update g key value w).1 = none) :
    (∀ x, jsonUnmarshal value = .ok x → x.isNil = false →
      (m.Read g key (m.Update g key value w).2).1 = (x, none)) ∧
    (∀ e, jsonUnmarshal value = .error e →
      (m.Read g key (m.Update g key value w).2).1 = (.string value, none)) ∧
    (∀ x, jsonUnmarshal value = .ok x → x.isNil = true →
      (m.Read g key (m.Update g key value w).2).1 = (.null, some (.notFound key m.bucket))) := by
  obtain ⟨hb, hs⟩ := Update_ok_stored m g key value w h
  have hr := Read_of_stored m g key value (m.Update g key value w).2 hb hs
  refine ⟨fun x hx hn => ?_, fun e he => ?_, fun x hx hn => ?_⟩
  · rw [hr, hx]; simp [hn]
  · rw [hr, he]
  · rw [hr, hx]; simp [hn]

/-! ## The fuel of the decoder -/

theorem skipSpace_length_le (cs : List Char) : (skipSpace cs).length ≤ cs.length := by
  induction cs with
  | nil => simp [skipSpace]
  | cons c cs ih =>
    simp only [skipSpace]
    split_ifs
    · simp only [List.length_cons]; omega
    · exact Nat.le_refl _

theorem takeDigits_length_le (cs : List Char) : (takeDigits cs).2.length ≤ cs.length := by
  induction cs with
  | nil => simp [takeDigits]
  | cons c cs ih =>
    simp only [takeDigits]
    split_ifs
    · simp only [List.length_cons]; omega
    · exact Nat.le_refl _

theorem scanDigits_length_le (cs ds r : List Char) (h : scanDigits cs = some (ds, r)) :
    r.length ≤ cs.length := by
  unfold scanDigits at h
  have hl := takeDigits_length_le cs
  rcases ht : takeDigits cs with ⟨ds', r'⟩
  rw [ht] at h hl
  cases ds' with
  | nil => simp at h
  | cons d ds'' =>
    simp only [Option.some.injEq, Prod.mk.injEq] at h
    rw [← h.2]
    exact hl

theorem scanInt_length_lt (cs ds r : List Char) (h : scanInt cs = some (ds, r)) :
    r.length < cs.length := by
  cases cs with
  | nil => simp [scanInt] at h
  | cons c cs =>
    simp only [scanInt] at h
    have hl := takeDigits_length_le cs
    split_ifs at h
    · simp only [Option.some.injEq, Prod.mk.injEq] at h
      rw [← h.2]; simp
    · simp only [Option.some.injEq, Prod.mk.injEq] at h
      rw [← h.2]; simp only [List.length_cons]; omega

theorem scanFrac_length_le (cs fs r : List Char) (h : scanFrac cs = some (fs, r)) :
    r.length ≤ cs.length := by
  cases cs with
  | nil =>
    simp only [scanFrac, Option.some.injEq, Prod.mk.injEq] at h
    rw [← h.2]
  | cons c cs =>
    simp only [scanFrac] at h
    split_ifs at h
    · have := scanDigits_length_le cs fs r h
      simp only [List.length_cons]; omega
    · simp only [Option.some.injEq, Prod.mk.injEq] at h
      rw [← h.2]

theorem scanExpSigned_length_le (cs : List Char) (e : Int) (r : List Char)
    (h : scanExpSigned cs = some (e, r)) : r.length ≤ cs.length := by
  cases cs with
  | nil => simp [scanExpSigned] at h
  | cons c cs =>
    simp only [scanExpSigned] at h
    split_ifs at h
    all_goals
      simp only [Option.map_eq_some', Prod.mk.injEq] at h
      obtain ⟨p, hp, -, hr⟩ := h
      have := scanDigits_length_le _ p.1 p.2 hp
      rw [← hr]
      simp only [List.length_cons] at this ⊢
      omega

theorem scanExp_length_le (cs : List Char) (e : Int) (r : List Char)
    (h : scanExp cs = some (e, r)) : r.length ≤ cs.length := by
  cases cs with
  | nil =>
    simp only [scanExp, Option.some.injEq, Prod.mk.injEq] at h
    rw [← h.2]
  | cons c cs =>
    simp only [scanExp] at h
    split_ifs at h
    · have := scanExpSigned_length_le cs e r h
      simp only [List.length_cons]; omega
    · simp only [Option.some.injEq, Prod.mk.injEq] at h
      rw [← h.2]

theorem scanUnsigned_length_lt (neg : Bool) (cs : List Char) (v : JValue) (b : Bool) (r : List Char)
    (h : scanUnsigned neg cs = some (v, b, r)) : r.length < cs.length := by
  unfold scanUnsigned at h
  rcases h1 : scanInt cs with _ | ⟨ds, r1⟩
  · rw [h1] at h; simp at h
  · rw [h1] at h
    simp only [] at h
    rcases h2 : scanFrac r1 with _ | ⟨fs, r2⟩
    · rw [h2] at h; simp at h
    · rw [h2] at h
      simp only [] at h
      rcases h3 : scanExp r2 with _ | ⟨e, r3⟩
      · rw [h3] at h; simp at h
      · rw [h3] at h
        simp only [Option.some.injEq, Prod.mk.injEq] at h
        have l1 := scanInt_length_lt cs ds r1 h1
        have l2 := scanFrac_length_le r1 fs r2 h2
        have l3 := scanExp_length_le r2 e r3 h3
        rw [← h.2.2]
        omega

theorem scanNumber_length_lt (cs : List Char) (v : JValue) (b : Bool) (r : List Char)
    (h : scanNumber cs = some (v, b, r)) : r.length < cs.length := by
  cases cs with
  | nil => simp [scanNumber] at h
  | cons c cs =>
    simp only [scanNumber] at h
    split_ifs at h
    · have := scanUnsigned_length_lt true cs v b r h
      simp only [List.length_cons]; omega
    · exact scanUnsigned_length_lt false (c :: cs) v b r h

theorem dropLiteral_length_le (lit cs r : List Char) (h : dropLiteral lit cs = some r) :
    r.length ≤ cs.length := by
  induction lit generalizing cs with
  | nil =>
    simp only [dropLiteral, Option.some.injEq] at h
    rw [← h]
  | cons l lit ih =>
    cases cs with
    | nil => simp [dropLiteral] at h
    | cons c cs =>
      simp only [dropLiteral] at h
      split_ifs at h
      have := ih cs h
      simp only [List.length_cons]; omega

theorem scanString_length_lt (cs : List Char) (st : StringState) (pend : Option Nat)
    (acc : List Char) (s : String) (r : List Char)
    (h : scanString cs st pend acc = some (s, r)) : r.length < cs.length := by
  induction cs generalizing st pend acc with
  | nil => simp [scanString] at h
  | cons c cs ih =>
    cases st with
    | plain =>
      simp only [scanString] at h
      split_ifs at h
      · simp only [Option.some.injEq, Prod.mk.injEq] at h
        rw [← h.2]; simp
      · have := ih _ _ _ h; simp only [List.length_cons]; omega
      · have := ih _ _ _ h; simp only [List.length_cons]; omega
    | escape =>
      simp only [scanString] at h
      split_ifs at h
      · have := ih _ _ _ h; simp only [List.length_cons]; omega
      · cases hu : unescape c with
        | none => rw [hu] at h; simp at h
        | some d =>
          rw [hu] at h
          have := ih _ _ _ h; simp only [List.length_cons]; omega
    | hex left value =>
      simp only [scanString] at h
      cases hv : hexVal c with
      | none => rw [hv] at h; simp at h
      | some d =>
        rw [hv] at h
        simp only [] at h
        split_ifs at h
        all_goals
          have := ih _ _ _ h
          simp only [List.length_cons]; omega

theorem parse_length_lt (f : Nat) :
    (∀ d cs v b r, parseValue f d cs = some (v, b, r) → r.length < cs.length) ∧
    (∀ d cs acc bad v b r, parseElements f d cs acc bad = some (v, b, r) → r.length < cs.length) ∧
    (∀ d cs acc bad v b r, parseMembers f d cs acc bad = some (v, b, r) → r.length < cs.length) := by
  induction f with
  | zero =>
    refine ⟨?_, ?_, ?_⟩ <;> intros <;> simp_all [parseValue, parseElements, parseMembers]
  | succ f ih =>
    obtain ⟨ihV, ihE, ihM⟩ := ih
    refine ⟨?_, ?_, ?_⟩
    · intro d cs v b r h
      cases cs with
      | nil => simp [parseValue] at h
      | cons c cs =>
        simp only [parseValue] at h
        split_ifs at h
        · simp only [Option.map_eq_some', Prod.mk.injEq] at h
          obtain ⟨p, hp, -, -, hr⟩ := h
          have := scanString_length_lt _ _ _ _ p.1 p.2 hp
          rw [← hr]; simp only [List.length_cons]; omega
        · simp only [Option.map_eq_some', Prod.mk.injEq] at h
          obtain ⟨p, hp, -, -, hr⟩ := h
          have := dropLiteral_length_le _ _ p hp
          rw [← hr]; simp only [List.length_cons]; omega
        · simp only [Option.map_eq_some', Prod.mk.injEq] at h
          obtain ⟨p, hp, -, -, hr⟩ := h
          have := dropLiteral_length_le _ _ p hp
          rw [← hr]; simp only [List.length_cons]; omega
        · simp only [Option.map_eq_some', Prod.mk.injEq] at h
          obtain ⟨p, hp, -, -, hr⟩ := h
          have := dropLiteral_length_le _ _ p hp
          rw [← hr]; simp only [List.length_cons]; omega
        · have hs := skipSpace_length_le cs
          rcases hsk : skipSpace cs with _ | ⟨c', r'⟩
          · rw [hsk] at h; simp at h
          · rw [hsk] at h hs
            simp only [] at h
            split_ifs at h
            · simp only [Option.some.injEq, Prod.mk.injEq] at h
              rw [← h.2.2]; simp only [List.length_cons] at hs ⊢; omega
            · have := ihE _ _ _ _ _ _ _ h
              simp only [List.length_cons] at hs this ⊢; omega
        · have hs := skipSpace_length_le cs
          rcases hsk : skipSpace cs with _ | ⟨c', r'⟩
          · rw [hsk] at h; simp at h
          · rw [hsk] at h hs
            simp only [] at h
            split_ifs at h
            · simp only [Option.some.injEq, Prod.mk.injEq] at h
              rw [← h.2.2]; simp only [List.length_cons] at hs ⊢; omega
            · have := ihM _ _ _ _ _ _ _ h
              simp only [List.length_cons] at hs this ⊢; omega
        · exact scanNumber_length_lt _ v b r h
    · intro d cs acc bad v b r h
      simp only [parseElements] at h
      rcases hv : parseValue f d cs with _ | ⟨v1, b1, r1⟩
      · rw [hv] at h; simp at h
      · rw [hv] at h
        simp only [] at h
        have l1 := ihV _ _ _ _ _ hv
        have hs := skipSpace_length_le r1
        rcases hsk : skipSpace r1 with _ | ⟨c', r'⟩
        · rw [hsk] at h; simp at h
        · rw [hsk] at h hs
          simp only [] at h
          split_ifs at h
          · have := ihE _ _ _ _ _ _ _ h
            have hs2 := skipSpace_length_le r'
            simp only [List.length_cons] at hs; omega
          · simp only [Option.some.injEq, Prod.mk.injEq] at h
            rw [← h.2.2]; simp only [List.length_cons] at hs; omega
    · intro d cs acc bad v b r h
      cases cs with
      | nil => simp [parseMembers] at h
      | cons q cs =>
        simp only [parseMembers] at h
        split_ifs at h
        rcases hk : scanString cs .plain none [] with _ | ⟨k, r1⟩
        · rw [hk] at h; simp at h
        · rw [hk] at h
          simp only [] at h
          have l1 := scanString_length_lt _ _ _ _ _ _ hk
          have hs1 := skipSpace_length_le r1
          rcases hsk : skipSpace r1 with _ | ⟨c, r2⟩
          · rw [hsk] at h; simp at h
          · rw [hsk] at h hs1
            simp only [] at h
            split_ifs at h
            have hs2 := skipSpace_length_le r2
            rcases hv : parseValue f d (skipSpace r2) with _ | ⟨v1, b1, r3⟩
            · rw [hv] at h; simp at h
            · rw [hv] at h
              simp only [] at h
              have l2 := ihV _ _ _ _ _ hv
              have hs3 := skipSpace_length_le r3
              rcases hsk3 : skipSpace r3 with _ | ⟨c', r4⟩
              · rw [hsk3] at h; simp at h
              · rw [hsk3] at h hs3
                simp only [] at h
                split_ifs at h
                · have := ihM _ _ _ _ _ _ _ h
                  have hs4 := skipSpace_length_le r4
                  simp only [List.length_cons] at hs1 hs3 ⊢; omega
                · simp only [Option.some.injEq, Prod.mk.injEq] at h
                  rw [← h.2.2]; simp only [List.length_cons] at hs1 hs3 ⊢; omega

theorem parse_fuel_stable (f : Nat) :
    (∀ d cs k, 2 * cs.length + 1 ≤ f → parseValue (f + k) d cs = parseValue f d cs) ∧
    (∀ d cs acc bad k, 2 * cs.length + 2 ≤ f →
      parseElements (f + k) d cs acc bad = parseElements f d cs acc bad) ∧
    (∀ d cs acc bad k, 2 * cs.length + 2 ≤ f →
      parseMembers (f + k) d cs acc bad = parseMembers f d cs acc bad) := by
  induction f with
  | zero =>
    refine ⟨?_, ?_, ?_⟩ <;> intros <;> omega
  | succ f ih =>
    obtain ⟨ihV, ihE, ihM⟩ := ih
    refine ⟨?_, ?_, ?_⟩
    · intro d cs k hf
      rw [Nat.add_right_comm]
      cases cs with
      | nil => simp [parseValue]
      | cons c cs =>
        simp only [parseValue]
        simp only [List.length_cons] at hf
        have hs := skipSpace_length_le cs
        rcases hsk : skipSpace cs with _ | ⟨c', r'⟩
        · rfl
        · rw [hsk] at hs
          simp only [List.length_cons] at hs
          simp only []
          rw [ihE (d + 1) (c' :: r') [] false k (by simp only [List.length_cons]; omega),
            ihM (d + 1) (c' :: r') [] false k (by simp only [List.length_cons]; omega)]
    · intro d cs acc bad k hf
      rw [Nat.add_right_comm]
      simp only [parseElements]
      rw [ihV d cs k (by omega)]
      rcases hv : parseValue f d cs with _ | ⟨v1, b1, r1⟩
      · rfl
      · simp only []
        have l1 := (parse_length_lt f).1 _ _ _ _ _ hv
        have hs := skipSpace_length_le r1
        rcases hsk : skipSpace r1 with _ | ⟨c', r'⟩
        · rfl
        · rw [hsk] at hs
          simp only [List.length_cons] at hs
          have hs2 := skipSpace_length_le r'
          simp only []
          rw [ihE d (skipSpace r') (v1 :: acc) (bad || b1) k (by omega)]
    · intro d cs acc bad k hf
      rw [Nat.add_right_comm]
      cases cs with
      | nil => simp [parseMembers]
      | cons q cs =>
        simp only [parseMembers]
        simp only [List.length_cons] at hf
        split_ifs
        · rcases hk : scanString cs .plain none [] with _ | ⟨key, r1⟩
          · rfl
          · simp only []
            have l1 := scanString_length_lt _ _ _ _ _ _ hk
            have hs1 := skipSpace_length_le r1
            rcases hsk : skipSpace r1 with _ | ⟨c, r2⟩
            · rfl
            · rw [hsk] at hs1
              simp only [List.length_cons] at hs1
              simp only []
              split_ifs
              · have hs2 := skipSpace_length_le r2
                rw [ihV d (skipSpace r2) k (by omega)]
                rcases hv : parseValue f d (skipSpace r2) with _ | ⟨v1, b1, r3⟩
                · rfl
                · simp only []
                  have l2 := (parse_length_lt f).1 _ _ _ _ _ hv
                  have hs3 := skipSpace_length_le r3
                  rcases hsk3 : skipSpace r3 with _ | ⟨c', r4⟩
                  · rfl
                  · rw [hsk3] at hs3
                    simp only [List.length_cons] at hs3
                    have hs4 := skipSpace_length_le r4
                    simp only []
                    rw [ihM d (skipSpace r4) (setMember key v1 acc) (bad || b1) k (by omega)]
              · rfl
        · rfl

/-- The fuel that `parseDocument` gives the decoder is enough: more fuel does not change
the result. -/
theorem parseDocument_fuel_enough (cs : List Char) (k : Nat) :
    parseValue (2 * cs.length + 2 + k) 0 (skipSpace cs)
      = parseValue (2 * cs.length + 2) 0 (skipSpace cs) := by
  have hs := skipSpace_length_le cs
  exact (parse_fuel_stable (2 * cs.length + 2)).1 0 (skipSpace cs) k (by omega)

end Main
